import Mathlib

/-!
Verification of the hashlife repository against its specification.

The development shallowly embeds the Rust sources:
  * `src/rules.rs`   — rule compiler (`RuleSet`, `count_bits`, `RuleSet::next`,
    `RuleSet::compute_rules`, the `FromStr` instance);
  * `src/cell.rs`    — quadtree cells (`Cell`, `LEAF_MASK`, `Cell::grow`,
    `Cell::compute_leaf_res`, `Cell::compute_res` and friends);
  * `src/world.rs`   — the world facade (`World::new`, `World::next`, `World::grow`);
  * `src/parse_util.rs` / `src/parse_rle.rs` / `src/rle.rs` — the RLE parsers.

Machine integers are modelled as `Nat` with explicit truncation where the Rust
code operates on `u16`/`usize` (`% 65536`, masks against `2 ^ 63`, `2 ^ 64 - 1`).
Rust panics (index out of bounds, `unwrap`, integer under/overflow in debug
builds, reachable `unreachable!`) are modelled as `none` / explicit crash
outcomes.  Unbounded recursion through the arena is modelled with explicit fuel;
`i128` coordinate overflow (which needs astronomically long inputs) is not
modelled and coordinates are plain `Int`.
-/

namespace Hashlife

/-- Truncation to 16 bits, the effect of a Rust `as u16` cast (and of value
bits shifted out of a `u16` by `<<`). -/
def u16 (x : Nat) : Nat := x % 65536

/-! ### `src/rules.rs` — the rule compiler -/

/-- `NBHD_MASK` from `rules.rs`: the eight neighbours of the cell at bit 5. -/
def NBHD_MASK : Nat := 0x0757

/-- `CELL_MASK` from `rules.rs`: the cell at bit 5 (row 2, column 2). -/
def CELL_MASK : Nat := 0x0020

/-- Fuel-indexed body of `count_bits` (Kernighan's loop `x &= x - 1`).  The
loop strictly decreases `x`, so fuel `x` suffices; the fuel only makes the
recursion structural. -/
def cbAux : Nat → Nat → Nat
  | 0, _ => 0
  | fuel + 1, x => if x = 0 then 0 else cbAux fuel (x &&& (x - 1)) + 1

/-- `count_bits` from `rules.rs`. -/
def count_bits (x : Nat) : Nat := cbAux x x

/-- `RuleSet` from `rules.rs`: birth digits in the upper 16 bits of `rule`,
survival digits in the lower 16 bits. -/
structure RuleSet where
  rule : Nat
deriving DecidableEq

/-- `RuleSet::births`. -/
def RuleSet.births (rs : RuleSet) : Nat := (rs.rule &&& (65535 <<< 16)) >>> 16

/-- `RuleSet::survivals`. -/
def RuleSet.survivals (rs : RuleSet) : Nat := rs.rule &&& 65535

/-- One iteration of the `for shift in shifts` loop in `RuleSet::next`. -/
def applyShift (births survivals cell res shift : Nat) : Nat :=
  let nbhd_mask := u16 (NBHD_MASK <<< shift)
  let cell_mask := u16 (CELL_MASK <<< shift)
  let dead := cell &&& cell_mask == 0
  let num_neighbors := count_bits (cell &&& nbhd_mask)
  let nn := u16 (1 <<< num_neighbors)
  if dead then
    if nn &&& births == nn then res ||| cell_mask else res
  else
    if nn &&& survivals == nn then res ||| cell_mask else res

/-- `RuleSet::next` from `rules.rs`: the loop over `shifts = [0, 1, 4, 5]`. -/
def RuleSet.next (rs : RuleSet) (cell : Nat) : Nat :=
  [0, 1, 4, 5].foldl (applyShift rs.births rs.survivals cell) 0

/-- `RuleSet::compute_rules` fills a `Vec` of 2^16 entries with
`rules[cell] = self.next(cell)`; the table is modelled as the function it
tabulates. -/
def RuleSet.compute_rules (rs : RuleSet) : Nat → Nat :=
  fun cell => rs.next cell

/-- State of the `FromStr` parser for `RuleSet` in `rules.rs`. -/
inductive RuleParseState where
  | birth
  | survival
deriving DecidableEq

/-- `RuleSetError` from `rules.rs`. -/
inductive RuleSetError where
  | invalidString
deriving DecidableEq

/-- The character loop of `impl FromStr for RuleSet` in `rules.rs`, over ASCII
byte values. -/
def ruleFromStrLoop : List Nat → RuleParseState → Nat → Except RuleSetError RuleSet
  | [], _, rule => .ok ⟨rule⟩
  | c :: cs, state, rule =>
    if c = 98 ∨ c = 66 then ruleFromStrLoop cs .birth rule
    else if c = 115 ∨ c = 83 then ruleFromStrLoop cs .survival rule
    else if 48 ≤ c ∧ c ≤ 57 then
      let n := c - 48
      if n > 8 then .error .invalidString
      else
        match state with
        | .survival => ruleFromStrLoop cs state (rule ||| (1 <<< n))
        | .birth => ruleFromStrLoop cs state (rule ||| (1 <<< (n + 16)))
    else .error .invalidString

/-- `RuleSet::from_str` from `rules.rs` (ASCII bytes of the rule string). -/
def RuleSet.from_str (s : List Nat) : Except RuleSetError RuleSet :=
  ruleFromStrLoop s .birth 0

/-- The rule value produced by parsing `"b3s23"`. -/
def b3s23 : RuleSet := ⟨524300⟩

/-! ### Specification-side definitions for the rule table (from the spec text
in §4.1: for each of the four central positions count the eight neighbours and
set the central bit iff (dead and birth[n]) or (alive and survival[n]); bit
`15 - (4*row + col)` holds the cell at `(row, col)` of the 4×4, row 0 topmost,
column 0 leftmost). -/

/-- Whether the 4×4 configuration `c` is alive at `(r, col)`. -/
def specAlive (c r col : Nat) : Bool := Nat.testBit c (15 - (4 * r + col))

/-- The eight neighbour coordinates of a position. -/
def neighborsOf (r col : Nat) : List (Nat × Nat) :=
  [(r - 1, col - 1), (r - 1, col), (r - 1, col + 1),
   (r, col - 1), (r, col + 1),
   (r + 1, col - 1), (r + 1, col), (r + 1, col + 1)]

/-- The number of live neighbours of `(r, col)` in the 4×4 configuration `c`. -/
def specCount (c r col : Nat) : Nat :=
  ((neighborsOf r col).map (fun p => ((specAlive c p.1 p.2).toNat : Nat))).sum

/-- Write the result bit for one central position, per the spec's words. -/
def specPos (b s c r col res : Nat) : Nat :=
  let n := specCount c r col
  if (if specAlive c r col then s.testBit n else b.testBit n) then
    res ||| 2 ^ (15 - (4 * r + col))
  else res

/-- The spec's description of a rule-table entry: the four central positions
`(2,2), (2,1), (1,2), (1,1)` each receive their next-generation bit. -/
def specNext (b s c : Nat) : Nat :=
  specPos b s c 1 1 (specPos b s c 1 2 (specPos b s c 2 1 (specPos b s c 2 2 0)))

/-- OR together `2 ^ i` over a list of bit positions (proof helper). -/
def maskOf (l : List Nat) : Nat := l.foldr (fun i acc => 2 ^ i ||| acc) 0

/-! ### `src/cell.rs` — quadtree cells -/

/-- `LEAF_MASK` on a 64-bit machine. -/
def LEAF_MASK : Nat := 2 ^ 63

/-- `!LEAF_MASK` as a `usize`. -/
def NOT_LEAF_MASK : Nat := 2 ^ 63 - 1

/-- Bitwise `usize` complement (64-bit). -/
def usizeNot (x : Nat) : Nat := 2 ^ 64 - 1 - x

/-- `Cell` from `cell.rs`: four machine words. -/
structure Cell where
  nw : Nat
  ne : Nat
  sw : Nat
  se : Nat
deriving DecidableEq

/-- `Cell::void` (equal to `Cell::uninit`): all four fields zero. -/
def Cell.void : Cell := ⟨0, 0, 0, 0⟩

/-- `Cell::leaf`: four `u16` quadrants, the tag bit set on `nw`. -/
def Cell.leaf (nw ne sw se : Nat) : Cell :=
  ⟨(nw % 65536) ||| LEAF_MASK, ne % 65536, sw % 65536, se % 65536⟩

/-- `Cell::is_void`: derived `PartialEq` against `Cell::void()`. -/
def Cell.is_void (c : Cell) : Bool :=
  c.nw == 0 && c.ne == 0 && c.sw == 0 && c.se == 0

/-- `Cell::is_leaf`: test the top bit of `nw`. -/
def Cell.is_leaf (c : Cell) : Bool :=
  c.nw &&& LEAF_MASK == LEAF_MASK

/-- `Cell::unmask_leaf`: clear the tag bit (`self.nw &= !LEAF_MASK`). -/
def Cell.unmask_leaf (c : Cell) : Cell := { c with nw := c.nw &&& NOT_LEAF_MASK }

/-- `Cell::mask_leaf` exactly as written in the source: `self.nw &= LEAF_MASK`.
(The comment in the source says this re-tags the leaf; `&=` keeps only the tag
bit, which the surrounding code has just cleared.) -/
def Cell.mask_leaf (c : Cell) : Cell := { c with nw := c.nw &&& LEAF_MASK }

/-- The value computed by the body of `Cell::compute_leaf_res` from the
unmasked quadrants (between `unmask_leaf` and `mask_leaf`). -/
def leafResValue (next : Nat → Nat) (c : Cell) : Nat :=
  let nw := c.nw % 65536
  let ne := c.ne % 65536
  let sw := c.sw % 65536
  let se := c.se % 65536
  let t00 := nw &&& 0x0660
  let t01 := (u16 ((nw &&& 0x0110) <<< 2)) ||| ((ne &&& 0x0880) >>> 2)
  let t02 := ne &&& 0x0660
  let t10 := (u16 ((nw &&& 0x0006) <<< 8)) ||| ((sw &&& 0x6000) >>> 8)
  let t11 := (u16 ((nw &&& 0x0001) <<< 10)) ||| (u16 ((ne &&& 0x0008) <<< 6))
         ||| ((sw &&& 0x1000) >>> 6) ||| ((se &&& 0x8000) >>> 10)
  let t12 := (u16 ((ne &&& 0x0006) <<< 8)) ||| ((se &&& 0x6000) >>> 8)
  let t20 := sw &&& 0x0660
  let t21 := (u16 ((sw &&& 0x0110) <<< 2)) ||| ((se &&& 0x0880) >>> 2)
  let t22 := se &&& 0x0660
  let tl := (u16 (t00 <<< 5)) ||| (u16 (t01 <<< 3)) ||| (t10 >>> 3) ||| (t11 >>> 5)
  let tr := (u16 (t01 <<< 5)) ||| (u16 (t02 <<< 3)) ||| (t11 >>> 3) ||| (t12 >>> 5)
  let bl := (u16 (t10 <<< 5)) ||| (u16 (t11 <<< 3)) ||| (t20 >>> 3) ||| (t21 >>> 5)
  let br := (u16 (t11 <<< 5)) ||| (u16 (t12 <<< 3)) ||| (t21 >>> 3) ||| (t22 >>> 5)
  (u16 (next tl <<< 5)) ||| (u16 (next tr <<< 3)) ||| (next bl >>> 3) ||| (next br >>> 5)

/-- `Cell::compute_leaf_res` as a state transformer: `unmask_leaf`, compute the
rule from the unmasked fields, then `mask_leaf`.  Returns the rule value and
the cell as left behind by the `&mut self` method. -/
def Cell.compute_leaf_res_run (next : Nat → Nat) (c : Cell) : Nat × Cell :=
  let c1 := c.unmask_leaf
  (leafResValue next c1, c1.mask_leaf)

/-- The value returned by `Cell::compute_leaf_res`. -/
def Cell.compute_leaf_res (next : Nat → Nat) (c : Cell) : Nat :=
  (c.compute_leaf_res_run next).1

/-- `Cell::grow` from `cell.rs`: wrap the cell in an empty frame, pushing the
four new children and returning the new root cell. -/
def Cell.grow (c : Cell) (buf : List Cell) : Cell × List Cell :=
  let mask := if c.is_leaf then LEAF_MASK else 0
  let nwChild : Cell := ⟨mask, 0, 0, c.nw &&& usizeNot mask⟩
  let neChild : Cell := ⟨mask, 0, c.ne, 0⟩
  let swChild : Cell := ⟨mask, c.sw, 0, 0⟩
  let seChild : Cell := ⟨c.se ||| mask, 0, 0, 0⟩
  let n := buf.length
  (⟨n, n + 1, n + 2, n + 3⟩, buf ++ [nwChild, neChild, swChild, seChild])

/-- The unconditional push performed by `Cell::compute_res`
(`let n = buf.len(); buf.push(cell); n`). -/
def pushCell (buf : List Cell) (c : Cell) : Nat × List Cell :=
  (buf.length, buf ++ [c])

/-- `Cell::is_16`: a cell none of whose is-leaf check fails... the source reads
`!self.is_leaf() && (buf[nw].is_leaf() || buf[ne].is_leaf() || ...)` with
short-circuit indexing; out-of-bounds indexing is a panic (`none`). -/
def Cell.is_16 (buf : List Cell) (c : Cell) : Option Bool :=
  if c.is_leaf then some false
  else do
    let a ← buf.get? c.nw
    if a.is_leaf then some true else do
    let b ← buf.get? c.ne
    if b.is_leaf then some true else do
    let d ← buf.get? c.sw
    if d.is_leaf then some true else do
    let e ← buf.get? c.se
    some e.is_leaf

/-- `cell_utils::h_center`. -/
def h_center (w e : Cell) : Cell := ⟨w.ne, e.nw, w.se, e.sw⟩

/-- `cell_utils::v_center`. -/
def v_center (n s : Cell) : Cell := ⟨n.sw, n.se, s.nw, s.ne⟩

/-- `cell_utils::center` (reads the buffer; out of bounds is a panic). -/
def center (c : Cell) (buf : List Cell) : Option Cell := do
  let a ← buf.get? c.nw
  let b ← buf.get? c.ne
  let d ← buf.get? c.sw
  let e ← buf.get? c.se
  some ⟨a.se, b.sw, d.ne, e.nw⟩

/-- `cell_utils::h_center8`. -/
def h_center8 (w e : Cell) : Cell :=
  let nw := w.ne % 65536
  let ne := (e.nw &&& NOT_LEAF_MASK) % 65536
  let sw := w.se % 65536
  let se := e.sw % 65536
  ⟨nw ||| LEAF_MASK, ne, sw, se⟩

/-- `cell_utils::v_center8`. -/
def v_center8 (n s : Cell) : Cell :=
  let nw := n.sw % 65536
  let ne := n.se % 65536
  let sw := (s.nw &&& NOT_LEAF_MASK) % 65536
  let se := s.ne % 65536
  ⟨nw ||| LEAF_MASK, ne, sw, se⟩

/-- `cell_utils::center16` (with its `assert!(cell.is_16(buf))`). -/
def center16 (c : Cell) (buf : List Cell) : Option Cell := do
  let chk ← c.is_16 buf
  if chk then
    let a ← buf.get? c.nw
    let b ← buf.get? c.ne
    let d ← buf.get? c.sw
    let e ← buf.get? c.se
    let nw := a.se % 65536
    let ne := b.sw % 65536
    let sw := d.ne % 65536
    let se := (e.nw &&& NOT_LEAF_MASK) % 65536
    some ⟨nw ||| LEAF_MASK, ne, sw, se⟩
  else none

/-- Run the recursive `compute_res` calls on a list of cells in order,
threading the buffer and collecting the returned values (the sequence of
`let nij = ....compute_res(next, buf)` statements in the source). -/
def recList (rec : Cell → List Cell → Option (Nat × List Cell)) :
    List Cell → List Cell → Option (List Nat × List Cell)
  | [], buf => some ([], buf)
  | c :: cs, buf =>
    match rec c buf with
    | none => none
    | some p =>
      match recList rec cs p.2 with
      | none => none
      | some q => some (p.1 :: q.1, q.2)

/-- `Cell::compute_node_res16`, with `rec` standing for the recursive
`compute_res` calls on the nine pseudo-leaves and four assembled leaves, in
source order `nw, n, ne, w, c, e, sw, s, se` then `tl, tr, bl, br`. -/
def compute_node_res16 (rec : Cell → List Cell → Option (Nat × List Cell))
    (c : Cell) (buf : List Cell) : Option (Cell × List Cell) :=
  match buf.get? c.nw, buf.get? c.ne, buf.get? c.sw, buf.get? c.se with
  | some nw, some ne, some sw, some se =>
    let n := h_center8 nw ne
    let s := h_center8 sw se
    let e := v_center8 ne se
    let w := v_center8 nw sw
    match center16 c buf with
    | none => none
    | some cc =>
      match recList rec [nw, n, ne, w, cc, e, sw, s, se] buf with
      | some ([n00, n01, n02, n10, n11, n12, n20, n21, n22], buf1) =>
        let tl := Cell.leaf (u16 n00) (u16 n01) (u16 n10) (u16 n11)
        let tr := Cell.leaf (u16 n01) (u16 n02) (u16 n11) (u16 n12)
        let bl := Cell.leaf (u16 n10) (u16 n11) (u16 n20) (u16 n21)
        let br := Cell.leaf (u16 n11) (u16 n12) (u16 n21) (u16 n22)
        match recList rec [tl, tr, bl, br] buf1 with
        | some ([tlr, trr, blr, brr], buf2) =>
          some (Cell.leaf (u16 tlr) (u16 trr) (u16 blr) (u16 brr), buf2)
        | _ => none
      | _ => none
  | _, _, _, _ => none

/-- `Cell::compute_node_res` (the `k ≥ 5` case), with `rec` standing for the
recursive `compute_res` calls, in source order. -/
def compute_node_res (rec : Cell → List Cell → Option (Nat × List Cell))
    (c : Cell) (buf : List Cell) : Option (Cell × List Cell) :=
  match buf.get? c.nw, buf.get? c.ne, buf.get? c.sw, buf.get? c.se with
  | some nw, some ne, some sw, some se =>
    let n := h_center nw ne
    let s := h_center sw se
    let e := v_center ne se
    let w := v_center nw sw
    match center c buf with
    | none => none
    | some cc =>
      match recList rec [nw, n, ne, w, cc, e, sw, s, se] buf with
      | some ([n00, n01, n02, n10, n11, n12, n20, n21, n22], buf1) =>
        let tl : Cell := ⟨n00, n01, n10, n11⟩
        let tr : Cell := ⟨n01, n02, n11, n12⟩
        let bl : Cell := ⟨n10, n11, n20, n21⟩
        let br : Cell := ⟨n11, n12, n21, n22⟩
        match recList rec [tl, tr, bl, br] buf1 with
        | some ([rnw, rne, rsw, rse], buf2) =>
          some (⟨rnw, rne, rsw, rse⟩, buf2)
        | _ => none
      | _ => none
  | _, _, _, _ => none

/-- `Cell::compute_res`: dispatch on void / leaf / 16-cell / node, with fuel
for the unbounded recursion through the arena. -/
def compute_res (next : Nat → Nat) : Nat → Cell → List Cell → Option (Nat × List Cell)
  | 0, _, _ => none
  | fuel + 1, c, buf =>
    if c.is_void then some (0, buf)
    else if c.is_leaf then some (c.compute_leaf_res next, buf)
    else do
      let s16 ← c.is_16 buf
      if s16 then do
        let p ← compute_node_res16 (compute_res next fuel) c buf
        some (pushCell p.2 p.1)
      else do
        let p ← compute_node_res (compute_res next fuel) c buf
        some (pushCell p.2 p.1)

/-! ### `src/world.rs` — the world facade -/

/-- `World` from `world.rs`; the rule table is modelled as a function. -/
structure World where
  rules : Nat → Nat
  root : Nat
  buf : List Cell
  depth : Nat

/-- `World::new`. -/
def World.new (depth : Nat) (rule_set : List Nat) : Except RuleSetError World :=
  match RuleSet.from_str rule_set with
  | .error e => .error e
  | .ok rs =>
    .ok { rules := rs.compute_rules, root := 1, buf := [Cell.void, Cell.void], depth := depth }

/-- `World::grow`: pop the root, wrap it via `Cell::grow`, push the new root,
increment the depth (a `u8`: incrementing 255 is a debug-build panic), repeat. -/
def World.grow : Nat → World → Option World
  | 0, w => some w
  | k + 1, w => do
    let root ← w.buf.getLast?
    let buf0 := w.buf.dropLast
    let (rootCell, buf1) := root.grow buf0
    let n := buf1.length
    if w.depth = 255 then none
    else
      World.grow k { rules := w.rules, root := n, buf := buf1 ++ [rootCell], depth := w.depth + 1 }

/-- `World::next`: pop the root, compute its result, decrement the depth
(a `u8`: decrementing 0 is a debug-build panic), then `grow(1)`. -/
def World.next (fuel : Nat) (w : World) : Option World := do
  let root ← w.buf.getLast?
  let buf0 := w.buf.dropLast
  let p ← compute_res w.rules fuel root buf0
  if w.depth = 0 then none
  else
    World.grow 1 { rules := w.rules, root := p.1, buf := p.2, depth := w.depth - 1 }

/-- Worlds reachable through `new`, `grow` and `next` (a panicking call
produces no world). -/
inductive Reachable : World → Prop
  | new : ∀ d bytes w, World.new d bytes = .ok w → Reachable w
  | grow : ∀ k w w', Reachable w → World.grow k w = some w' → Reachable w'
  | next : ∀ fuel w w', Reachable w → World.next fuel w = some w' → Reachable w'

/-- One unfolding step of `World::grow` with the popped root `rc`
(proof-side description of the loop body). -/
def growStep (rc : Cell) (w : World) : World :=
  let p := rc.grow w.buf.dropLast
  { rules := w.rules, root := p.2.length, buf := p.2 ++ [p.1], depth := w.depth + 1 }

/-! ### The tree walk (root-centered live-cell decode, per §4.3.1 and §6)

A leaf quadrant `u16` holds cell `(row, col)` of its 4×4 in bit
`15 - (4*row + col)` (row 0 topmost, column 0 leftmost, matching `set_bit` and
`draw_rule`); the NW/NE/SW/SE quadrants are the sign quadrants of a
root-centered frame with y growing upward, so a node of depth `d` spans
`[-2^(d+2), 2^(d+2))` in each axis. -/

/-- Decode one live cell of a leaf at root-centered `(x, y)`,
`x, y ∈ [-4, 4)`. -/
def leafLive (c : Cell) (x y : Int) : Bool :=
  if -4 ≤ x ∧ x < 4 ∧ -4 ≤ y ∧ y < 4 then
    let q : Nat :=
      if x < 0 then (if y < 0 then c.sw else c.nw &&& NOT_LEAF_MASK)
      else (if y < 0 then c.se else c.ne)
    let col : Nat := (if x < 0 then x + 4 else x).toNat
    let row : Nat := (if y < 0 then -1 - y else 3 - y).toNat
    Nat.testBit (q % 65536) (15 - (4 * row + col))
  else false

/-- Walk the tree from a cell at the given depth (fuel), returning whether the
root-centered coordinate `(x, y)` is live.  Void subtrees are empty; a child
reference is resolved through the buffer. -/
def liveB (buf : List Cell) : Nat → Cell → Int → Int → Bool
  | 0, c, x, y => if c.is_leaf then leafLive c x y else false
  | f + 1, c, x, y =>
    if c.is_void then false
    else if c.is_leaf then leafLive c x y
    else
      let off : Int := 2 ^ (f + 2)
      if x < 0 then
        if y < 0 then liveB buf f (buf.getD c.sw Cell.void) (x + off) (y + off)
        else liveB buf f (buf.getD c.nw Cell.void) (x + off) (y - off)
      else
        if y < 0 then liveB buf f (buf.getD c.se Cell.void) (x - off) (y + off)
        else liveB buf f (buf.getD c.ne Cell.void) (x - off) (y - off)

/-- Structural consistency of a subtree: leaves sit exactly at depth 0, and
every interior child index is below the bound `n` (the root's own slot). -/
def consB (buf : List Cell) (n : Nat) : Nat → Cell → Bool
  | f, c =>
    if c.is_void then true
    else if c.is_leaf then f == 0
    else
      match f with
      | 0 => false
      | f + 1 =>
        decide (c.nw < n) && decide (c.ne < n) && decide (c.sw < n) && decide (c.se < n) &&
        consB buf n f (buf.getD c.nw Cell.void) && consB buf n f (buf.getD c.ne Cell.void) &&
        consB buf n f (buf.getD c.sw Cell.void) && consB buf n f (buf.getD c.se Cell.void)

/-- The root cell of a world. -/
def rootCellOf (w : World) : Cell := w.buf.getD w.root Cell.void

/-- The live-cell set of a world, in root-centered coordinates. -/
def worldLive (w : World) (x y : Int) : Bool :=
  liveB w.buf w.depth (rootCellOf w) x y

/-- Well-formedness of a world: the root is the last buffer slot, slot 0 holds
the void cell, and the tree under the root is depth-consistent with all child
indices below the root's slot. -/
def WorldInv (w : World) : Prop :=
  w.root + 1 = w.buf.length ∧
  w.buf.getD 0 Cell.void = Cell.void ∧
  consB w.buf (w.buf.length - 1) w.depth (rootCellOf w) = true

/-! ### Reference semantics of the automaton (from the spec, §4.1/§4.3.4)

An 8×8 grid in top-left coordinates (row 0 topmost), outer-totalistic step
with dead boundary, two generations, and the central 4×4 read off in the
canonical bit layout. -/

/-- The 8×8 grid of a leaf, top-left row/column coordinates. -/
def leafGridTL (c : Cell) (r col : Int) : Bool :=
  if 0 ≤ r ∧ r < 8 ∧ 0 ≤ col ∧ col < 8 then
    let q : Nat :=
      if r < 4 then (if col < 4 then c.nw &&& NOT_LEAF_MASK else c.ne)
      else (if col < 4 then c.sw else c.se)
    let rr : Nat := (r % 4).toNat
    let cc : Nat := (col % 4).toNat
    Nat.testBit (q % 65536) (15 - (4 * rr + cc))
  else false

/-- One generation of the outer-totalistic rule with birth mask `b` and
survival mask `s` on the 8×8 grid (cells outside are dead). -/
def stepOT (b s : Nat) (g : Int → Int → Bool) : Int → Int → Bool := fun r col =>
  if 0 ≤ r ∧ r < 8 ∧ 0 ≤ col ∧ col < 8 then
    let offs : List (Int × Int) := [(-1,-1),(-1,0),(-1,1),(0,-1),(0,1),(1,-1),(1,0),(1,1)]
    let n : Nat := (offs.map (fun d => if g (r + d.1) (col + d.2) then 1 else 0)).sum
    if g r col then s.testBit n else b.testBit n
  else false

/-- The sixteen positions of the central 4×4. -/
def centerCells : List (Nat × Nat) :=
  (List.range 4).flatMap (fun r => (List.range 4).map (fun col => (r, col)))

/-- Read the central 4×4 of an 8×8 grid into the canonical 16-bit layout. -/
def centerRead (g : Int → Int → Bool) : Nat :=
  (centerCells.map (fun p =>
    if g ((p.1 : Int) + 2) ((p.2 : Int) + 2) then 2 ^ (15 - (4 * p.1 + p.2)) else 0)).sum

/-- The central 4×4 after two generations of the rule on the leaf's 8×8 grid. -/
def twoGenCenter (b s : Nat) (c : Cell) : Nat :=
  centerRead (stepOT b s (stepOT b s (leafGridTL c)))

/-- The central 4×4 after one generation of the rule on the leaf's 8×8 grid. -/
def oneGenCenter (b s : Nat) (c : Cell) : Nat :=
  centerRead (stepOT b s (leafGridTL c))

/-! ### `src/parse_util.rs` — byte-slice parsing helpers

Byte slices are `List Nat` of byte values; the sources assume ASCII, so UTF-8
validity (whose failure the sources declare unreachable) is not modelled. -/

/-- Rust `u8::is_ascii_whitespace`. -/
def isWsByte (b : Nat) : Bool := b == 32 || b == 9 || b == 10 || b == 12 || b == 13

/-- Rust `u8::is_ascii_digit`. -/
def isDigitByte (b : Nat) : Bool := decide (48 ≤ b ∧ b ≤ 57)

/-- `ParseError` from `parse_util.rs`. -/
inductive ParseError where
  | unexpectedEof (exp : Nat)
  | unexpectedToken (exp got : Nat)
  | unexpectedSlice (exp got : List Nat)
  | unequalInputs (left right : List Nat)
deriving DecidableEq

/-- `ConvertError` from `parse_util.rs` / `parse_rle.rs` (the UTF-8 variant is
declared unreachable by the sources and is not modelled). -/
inductive ConvertError where
  | parseErr (str : List Nat)
deriving DecidableEq

namespace ParseUtil

/-- `take_ws`: drop leading ASCII whitespace. -/
def take_ws (bytes : List Nat) : List Nat := bytes.dropWhile isWsByte

/-- `take_1`. -/
def take_1 : List Nat → Option Nat × List Nat
  | [] => (none, [])
  | b :: rest => (some b, rest)

/-- `peek_1`. -/
def peek_1 : List Nat → Option Nat
  | [] => none
  | b :: _ => some b

/-- `expect`. -/
def expect (b : Nat) (bytes : List Nat) : Except ParseError (List Nat) :=
  match take_1 bytes with
  | (none, _) => .error (.unexpectedEof b)
  | (some a, rest) =>
    if a ≠ b then .error (.unexpectedToken b a) else .ok rest

/-- `expect_slice`. -/
def expect_slice (bs bytes : List Nat) : Except ParseError (List Nat) :=
  if bs.isPrefixOf bytes then .ok (bytes.drop bs.length)
  else .error (.unexpectedSlice bs (bytes.take (min bs.length bytes.length)))

/-- `is`: `expect` plus the check that the whole slice was that one byte. -/
def is (b : Nat) (bytes : List Nat) : Except ParseError Unit :=
  match expect b bytes with
  | .error e => .error e
  | .ok _ =>
    if bytes.length = 1 then .ok ()
    else .error (.unequalInputs [b] bytes)

/-- `take_until_fn`: the Rust loop leaves `i = 0` both when no byte satisfies
`p` and when the first byte does, and returns `None` in either case. -/
def take_until_fn (p : Nat → Bool) (bytes : List Nat) : Option (List Nat) × List Nat :=
  let i := bytes.findIdx p
  if i = 0 ∨ i = bytes.length then (none, bytes)
  else (some (bytes.take i), bytes.drop i)

/-- `take_until`. -/
def take_until (b : Nat) (bytes : List Nat) : Option (List Nat) × List Nat :=
  take_until_fn (fun a => a == b) bytes

/-- `take_until_ws`. -/
def take_until_ws (bytes : List Nat) : Option (List Nat) × List Nat :=
  take_until_fn isWsByte bytes

/-- `take_with`: `take_until` and consume the found byte. -/
def take_with (b : Nat) (bytes : List Nat) : Option (List Nat) × List Nat :=
  match take_until b bytes with
  | (none, rest) => (none, rest)
  | (some res, rest) => (some res, (take_1 rest).2)

/-- Decimal value of a digit string. -/
def digitsToNat (l : List Nat) : Nat := l.foldl (fun acc b => acc * 10 + (b - 48)) 0

/-- Rust `str::parse` for an unsigned integer type with `bound` values
(an optional leading `+`, then one or more digits, value below `bound`). -/
def parseUnsigned (bound : Nat) (bytes : List Nat) : Option Nat :=
  let ds := match bytes with
    | 43 :: rest => rest
    | _ => bytes
  if ds = [] ∨ ¬ (ds.all isDigitByte = true) then none
  else if digitsToNat ds < bound then some (digitsToNat ds) else none

/-- Rust `str::parse` for a signed integer type with magnitude bound `2^w`
(i128: values in `[-2^127, 2^127)`). -/
def parseSigned (half : Nat) (bytes : List Nat) : Option Int :=
  match bytes with
  | 45 :: rest =>
    if rest = [] ∨ ¬ (rest.all isDigitByte = true) then none
    else if digitsToNat rest ≤ half then some (-(digitsToNat rest : Int)) else none
  | _ =>
    match parseUnsigned half bytes with
    | none => none
    | some v => some (v : Int)

end ParseUtil

/-! ### `src/rule_set.rs` — the extended rule-string parser -/

/-- `RuleTopology` from `rule_set.rs`. -/
inductive RuleTopology where
  | planar
  | torus
  | kleinBottle
  | spherical
  | cylindrical
deriving DecidableEq

/-- `RuleSize` from `rule_set.rs`. -/
inductive RuleSize where
  | bounded (v : Nat)
  | unbounded
deriving DecidableEq

/-- `RuleExtension` from `rule_set.rs`. -/
structure RuleExtension where
  topology : RuleTopology
  width : RuleSize
  height : RuleSize
deriving DecidableEq

/-- `RuleSet` from `rule_set.rs` (distinct from the `rules.rs` type): packed
birth/survival masks plus an optional topology extension. -/
structure RuleSetX where
  rule : Nat
  ext : Option RuleExtension
deriving DecidableEq

/-- `RuleSet::new` from `rule_set.rs`. -/
def RuleSetX.new (b s : Nat) : RuleSetX :=
  ⟨((b &&& 0x1FF) <<< 16) ||| (s &&& 0x1FF), none⟩

/-- `RuleSet::with_extension` from `rule_set.rs`. -/
def RuleSetX.with_extension (b s : Nat) (e : RuleExtension) : RuleSetX :=
  ⟨((b &&& 0x1FF) <<< 16) ||| (s &&& 0x1FF), some e⟩

/-- `B3S23` from `rule_set.rs`, the `Default` for `RuleSet`. -/
def B3S23X : RuleSetX := RuleSetX.new 8 12

/-- `RuleExtensionError` from `rule_set.rs`. -/
inductive RuleExtensionError where
  | parseErr (e : ParseError)
  | unexpectedEof
  | unrecognizedTopology (got : Nat)
  | noWidth
  | noHeight
  | parseWidth (got : List Nat)
  | parseHeight (got : List Nat)
deriving DecidableEq

/-- `RuleError` from `rule_set.rs`. -/
inductive RuleError where
  | parseErr (e : ParseError)
  | noBirths
  | noBirthsCount
  | noSurvivals
  | noSurvivalsCount
  | birthNonDigits
  | survivalNonDigits
  | extErr (e : RuleExtensionError)
deriving DecidableEq

/-- `survival_stop_fn` from `rule_set.rs`. -/
def survival_stop_fn (b : Nat) : Bool := isWsByte b || b == 58

/-- The digit loop of `bytes_to_num` from `rule_set.rs`. -/
def bytesToNumLoop : List Nat → Nat → Except Unit Nat
  | [], n => .ok n
  | b :: bs, n =>
    if isDigitByte b then bytesToNumLoop bs (n ||| (1 <<< (b - 48)))
    else .error ()

/-- `bytes_to_num` from `rule_set.rs`. -/
def bytes_to_num (bytes : List Nat) : Except Unit Nat := bytesToNumLoop bytes 0

/-- `parse_rule_extension` from `rule_set.rs`. -/
def parse_rule_extension (bytes : List Nat) :
    Except RuleExtensionError (RuleExtension × List Nat) :=
  match ParseUtil.expect 58 bytes with
  | .error e => .error (.parseErr e)
  | .ok bytes =>
    match ParseUtil.take_1 bytes with
    | (none, _) => .error .unexpectedEof
    | (some b, bytes) =>
      let topo : Except RuleExtensionError RuleTopology :=
        if b = 80 then .ok .planar
        else if b = 84 then .ok .torus
        else if b = 75 then .ok .kleinBottle
        else if b = 83 then .ok .spherical
        else if b = 67 then .ok .cylindrical
        else .error (.unrecognizedTopology b)
      match topo with
      | .error e => .error e
      | .ok topology =>
        match ParseUtil.take_until 44 bytes with
        | (none, _) => .error .noWidth
        | (some width_bs, bytes) =>
          let width : Except RuleExtensionError RuleSize :=
            match ParseUtil.parseUnsigned (2 ^ 32) width_bs with
            | some w => .ok (.bounded w)
            | none =>
              match ParseUtil.is 42 width_bs with
              | .ok _ => .ok .unbounded
              | .error _ => .error (.parseWidth width_bs)
          match width with
          | .error e => .error e
          | .ok width =>
            match ParseUtil.expect 44 bytes with
            | .error e => .error (.parseErr e)
            | .ok bytes =>
              match ParseUtil.take_until_ws bytes with
              | (none, _) => .error .noHeight
              | (some height_bs, bytes) =>
                let height : Except RuleExtensionError RuleSize :=
                  match ParseUtil.parseUnsigned (2 ^ 32) height_bs with
                  | some h => .ok (.bounded h)
                  | none =>
                    match ParseUtil.is 42 height_bs with
                    | .ok _ => .ok .unbounded
                    | .error _ => .error (.parseHeight height_bs)
                match height with
                | .error e => .error e
                | .ok height => .ok (⟨topology, width, height⟩, bytes)

/-- The shared tail of `parse_rule` / `parse_nameless_rule`: after the birth
mask, `/`, survival marker and mask, an optional `:`-extension. -/
def parseRuleTail (b s : Nat) (bytes : List Nat) :
    Except RuleError (RuleSetX × List Nat) :=
  match ParseUtil.peek_1 bytes with
  | some 58 =>
    match parse_rule_extension bytes with
    | .error e => .error (.extErr e)
    | .ok (ext, bytes) => .ok (RuleSetX.with_extension b s ext, bytes)
  | _ => .ok (RuleSetX.new b s, bytes)

/-- `parse_rule` from `rule_set.rs` (rules like `b3/s23`). -/
def parse_rule (bytes : List Nat) : Except RuleError (RuleSetX × List Nat) :=
  match ParseUtil.take_1 bytes with
  | (some b0, bytes) =>
    if b0 = 98 ∨ b0 = 66 then
      match ParseUtil.take_until 47 bytes with
      | (none, _) => .error .noBirthsCount
      | (some bbs, bytes) =>
        match bytes_to_num bbs with
        | .error _ => .error .birthNonDigits
        | .ok b =>
          match ParseUtil.expect 47 bytes with
          | .error e => .error (.parseErr e)
          | .ok bytes =>
            match ParseUtil.take_1 bytes with
            | (some s0, bytes) =>
              if s0 = 115 ∨ s0 = 83 then
                match ParseUtil.take_until_fn survival_stop_fn bytes with
                | (none, _) => .error .noSurvivalsCount
                | (some sbs, bytes) =>
                  match bytes_to_num sbs with
                  | .error _ => .error .survivalNonDigits
                  | .ok s => parseRuleTail b s bytes
              else .error .noSurvivals
            | (none, _) => .error .noSurvivals
    else .error .noBirths
  | (none, _) => .error .noBirths

/-- `parse_nameless_rule` from `rule_set.rs` (rules like `3/23`). -/
def parse_nameless_rule (bytes : List Nat) : Except RuleError (RuleSetX × List Nat) :=
  match ParseUtil.take_until 47 bytes with
  | (none, _) => .error .noBirthsCount
  | (some bbs, bytes) =>
    match bytes_to_num bbs with
    | .error _ => .error .birthNonDigits
    | .ok b =>
      match ParseUtil.expect 47 bytes with
      | .error e => .error (.parseErr e)
      | .ok bytes =>
        match ParseUtil.take_until_fn survival_stop_fn bytes with
        | (none, _) => .error .noSurvivalsCount
        | (some sbs, bytes) =>
          match bytes_to_num sbs with
          | .error _ => .error .survivalNonDigits
          | .ok s => parseRuleTail b s bytes

/-- Outcome of a fallible parse that can also hit a reachable panic
(an `unwrap`/`unreachable!` in the source). -/
inductive PR (ε α : Type) where
  | ok (a : α)
  | err (e : ε)
  | crashed
deriving DecidableEq

/-! ### `src/parse_rle.rs` — the current RLE parser -/

namespace ParseRle

/-- `RleFile` from `parse_rle.rs` (`set` defaults to `B3S23`). -/
structure RleFile where
  name : Option (List Nat)
  author : Option (List Nat)
  offset : Option (Int × Int)
  set : RuleSetX
deriving DecidableEq

/-- `RleFile::default()`. -/
def RleFile.init : RleFile := ⟨none, none, none, B3S23X⟩

/-- `RleCoordError` from `parse_rle.rs`. -/
inductive RleCoordError where
  | parseErr (e : ParseError)
  | noX
  | parseX (e : ConvertError)
  | noY
  | parseY (e : ConvertError)
deriving DecidableEq

/-- `RleCommentLineError` from `parse_rle.rs`. -/
inductive RleCommentLineError where
  | noType
  | emptyName
  | emptyAuthor
  | invalidRule (e : RuleError)
  | invalidCoord (e : RleCoordError)
  | invalidType (got : Nat)
deriving DecidableEq

/-- `RleHeaderLineError` from `parse_rle.rs`. -/
inductive RleHeaderLineError where
  | parseErr (e : ParseError)
  | invalidToken (got : Nat)
  | invalidRule (e : RuleError)
deriving DecidableEq

/-- `RleEncodingError` from `parse_rle.rs`. -/
inductive RleEncodingError where
  | unexpectedEof
  | runLength (bytes : List Nat)
  | unrecognizedByte (got : Nat)
deriving DecidableEq

/-- `RleError` from `parse_rle.rs`. -/
inductive RleError where
  | commentLine (e : RleCommentLineError)
  | headerLine (e : RleHeaderLineError)
  | encoding (e : RleEncodingError)
deriving DecidableEq

/-- `RleCommentLine` from `parse_rle.rs`. -/
inductive RleCommentLine where
  | comment
  | name (nm : List Nat)
  | author (au : List Nat)
  | offset (x y : Int)
  | ruleSet (set : RuleSetX)
deriving DecidableEq

/-- `read_coordinates` from `parse_rle.rs` (coordinates are `i128`). -/
def read_coordinates (bytes : List Nat) :
    Except RleCoordError ((Int × Int) × List Nat) :=
  match ParseUtil.expect 120 bytes with
  | .error e => .error (.parseErr e)
  | .ok bytes =>
    let bytes := ParseUtil.take_ws bytes
    match ParseUtil.expect 61 bytes with
    | .error e => .error (.parseErr e)
    | .ok bytes =>
      let bytes := ParseUtil.take_ws bytes
      match ParseUtil.take_with 44 bytes with
      | (none, _) => .error .noX
      | (some x_bytes, bytes) =>
        match ParseUtil.parseSigned (2 ^ 127) x_bytes with
        | none => .error (.parseX (.parseErr x_bytes))
        | some x =>
          let bytes := ParseUtil.take_ws bytes
          match ParseUtil.expect 121 bytes with
          | .error e => .error (.parseErr e)
          | .ok bytes =>
            let bytes := ParseUtil.take_ws bytes
            match ParseUtil.expect 61 bytes with
            | .error e => .error (.parseErr e)
            | .ok bytes =>
              let bytes := ParseUtil.take_ws bytes
              match ParseUtil.take_until_fn (fun b => b == 44 || b == 10) bytes with
              | (none, _) => .error .noY
              | (some y_bytes, bytes) =>
                match ParseUtil.parseSigned (2 ^ 127) y_bytes with
                | none => .error (.parseY (.parseErr y_bytes))
                | some y => .ok ((x, y), bytes)

/-- `read_line_comment` from `parse_rle.rs`. -/
def read_line_comment (bytes : List Nat) :
    Except RleCommentLineError (Option RleCommentLine × List Nat) :=
  match ParseUtil.expect 35 bytes with
  | .error _ => .ok (none, bytes)
  | .ok bytes =>
    match ParseUtil.take_1 bytes with
    | (none, _) => .error .noType
    | (some b, bytes) =>
      if b = 67 ∨ b = 99 then
        let p := ParseUtil.take_with 10 bytes
        .ok (some .comment, p.2)
      else if b = 78 then
        let bytes := ParseUtil.take_ws bytes
        match ParseUtil.take_with 10 bytes with
        | (none, _) => .error .emptyName
        | (some nm, bytes) => .ok (some (.name nm), bytes)
      else if b = 79 then
        let bytes := ParseUtil.take_ws bytes
        match ParseUtil.take_with 10 bytes with
        | (none, _) => .error .emptyAuthor
        | (some au, bytes) => .ok (some (.author au), bytes)
      else if b = 82 ∨ b = 80 then
        let bytes := ParseUtil.take_ws bytes
        match read_coordinates bytes with
        | .error e => .error (.invalidCoord e)
        | .ok ((x, y), bytes) => .ok (some (.offset x y), bytes)
      else if b = 114 then
        let bytes := ParseUtil.take_ws bytes
        match parse_nameless_rule bytes with
        | .error e => .error (.invalidRule e)
        | .ok (rule, bytes) =>
          let bytes := ParseUtil.take_ws bytes
          .ok (some (.ruleSet rule), bytes)
      else .error (.invalidType b)

/-- `RleHeaderLine` from `parse_rle.rs`. -/
structure RleHeaderLine where
  x : Int
  y : Int
  set : Option RuleSetX
deriving DecidableEq

/-- `read_line_header` from `parse_rle.rs`.  The `take_1` after a successful
`read_coordinates` cannot fail (the coordinate reader leaves the terminator
unconsumed); the source marks it `unreachable!`. -/
def read_line_header (bytes : List Nat) :
    PR RleHeaderLineError (Option RleHeaderLine × List Nat) :=
  match read_coordinates bytes with
  | .error _ => .ok (none, bytes)
  | .ok ((x, y), bytes) =>
    match ParseUtil.take_1 bytes with
    | (none, _) => .crashed
    | (some b, bytes) =>
      if b = 44 then
        let bytes := ParseUtil.take_ws bytes
        match ParseUtil.expect_slice [114, 117, 108, 101] bytes with
        | .error e => .err (.parseErr e)
        | .ok bytes =>
          let bytes := ParseUtil.take_ws bytes
          match ParseUtil.expect 61 bytes with
          | .error e => .err (.parseErr e)
          | .ok bytes =>
            let bytes := ParseUtil.take_ws bytes
            match parse_rule bytes with
            | .error e => .err (.invalidRule e)
            | .ok (rule, bytes) => .ok (some ⟨x, y, some rule⟩, bytes)
      else if b = 10 then .ok (some ⟨x, y, none⟩, bytes)
      else .err (.invalidToken b)

/-- The payload loop of `read_encoding` from `parse_rle.rs`, collecting the
coordinates passed to the callback.  Every continuing iteration consumes at
least one byte, so fuel `|bytes| + 1` never runs out.  The two `unreachable!`
arms of the source (digit run reaching the end of input; repeat count followed
by a newline) are reachable and modelled as `.crashed`. -/
def read_encodingLoop (dx dy : Int) :
    Nat → List Nat → Nat → Int → Int → List (Int × Int) → PR RleEncodingError (List (Int × Int))
  | 0, _, _, _, _, _ => .crashed
  | fuel + 1, bytes, rep, x, y, acc =>
    match ParseUtil.peek_1 bytes with
    | none => .err .unexpectedEof
    | some b =>
      if b = 13 ∨ b = 10 then
        read_encodingLoop dx dy fuel (ParseUtil.take_1 bytes).2 rep x y acc
      else if b = 33 then .ok acc
      else if b = 98 then
        read_encodingLoop dx dy fuel (ParseUtil.take_1 bytes).2 1 (x + (rep : Int)) y acc
      else if b = 111 then
        let emits := (List.range rep).map (fun i => (dx + x + (i : Int), dy + y))
        read_encodingLoop dx dy fuel (ParseUtil.take_1 bytes).2 1 (x + (rep : Int)) y (acc ++ emits)
      else if b = 36 then
        read_encodingLoop dx dy fuel (ParseUtil.take_1 bytes).2 1 0 (y - (rep : Int)) acc
      else if isDigitByte b then
        match ParseUtil.take_until_fn (fun a => !isDigitByte a) bytes with
        | (none, _) => .crashed
        | (some n, rest) =>
          if ParseUtil.peek_1 rest = some 10 then .crashed
          else
            match ParseUtil.parseUnsigned (2 ^ 64) n with
            | none => .err (.runLength n)
            | some rep2 => read_encodingLoop dx dy fuel rest rep2 x y acc
      else .err (.unrecognizedByte b)

/-- `read_encoding` from `parse_rle.rs`. -/
def read_encoding (bytes : List Nat) (dx dy : Int) : PR RleEncodingError (List (Int × Int)) :=
  read_encodingLoop dx dy (bytes.length + 1) bytes 1 0 0 []

/-- The comment-line loop of `read_rle` from `parse_rle.rs`: duplicated
name/author/offset lines only log a warning and the latest value wins. -/
def read_rleLoop : Nat → RleFile → List Nat → PR RleError (RleFile × List Nat)
  | 0, _, _ => .crashed
  | fuel + 1, file, bytes =>
    match read_line_comment bytes with
    | .error e => .err (.commentLine e)
    | .ok (none, _) => .ok (file, bytes)
    | .ok (some line, rest) =>
      match line with
      | .comment => read_rleLoop fuel file rest
      | .name nm => read_rleLoop fuel { file with name := some nm } rest
      | .author au => read_rleLoop fuel { file with author := some au } rest
      | .offset x y => read_rleLoop fuel { file with offset := some (x, y) } rest
      | .ruleSet s => read_rleLoop fuel { file with set := s } rest

/-- `read_rle` from `parse_rle.rs`; the callback's emissions are collected. -/
def read_rle (bytes : List Nat) : PR RleError (RleFile × List (Int × Int)) :=
  match read_rleLoop (bytes.length + 1) RleFile.init bytes with
  | .crashed => .crashed
  | .err e => .err e
  | .ok (file, bytes) =>
    match read_line_header bytes with
    | .crashed => .crashed
    | .err e => .err (.headerLine e)
    | .ok (hdr, bytes2) =>
      let fileBytes : RleFile × List Nat :=
        match hdr with
        | none => (file, bytes)
        | some h => ({ file with offset := some (h.x, h.y) }, bytes2)
      let file := fileBytes.1
      let bytes := fileBytes.2
      let off := file.offset.getD (0, 0)
      match read_encoding bytes off.1 off.2 with
      | .crashed => .crashed
      | .err e => .err (.encoding e)
      | .ok emits => .ok (file, emits)

end ParseRle

/-! ### `src/rle.rs` — the earlier RLE parser (anyhow-based)

Its `bail!` messages are modelled as constructors of one error type.  The file
names `crate::rule_set::RuleSet` but calls `RuleSet::from_str`, which only the
`rules.rs` type provides; the `set` field is therefore modelled with the
`rules.rs` `RuleSet` and the crate's default rule `b3/s23`. -/

namespace Rle

/-- The `bail!` messages of `rle.rs` as an error type. -/
inductive LErr where
  | noCommentType
  | emptyName
  | emptyAuthor
  | invalidCoordinates
  | rulesUnsupported
  | unrecognizedCommentType (got : Nat)
  | nameAlreadyDefined
  | authorAlreadyDefined
  | offsetAlreadyDefined
  | parseErr (e : ParseError)
  | headerNoRule
  | headerRuleInvalid (bytes : List Nat)
  | headerInvalidToken (got : Nat)
  | encodingEof
  | encodingRunLength (bytes : List Nat)
  | encodingCountNewline
  | encodingUnrecognized (got : Nat)
  | coordNoX
  | coordParseX (bytes : List Nat)
  | coordNoY
  | coordParseY (bytes : List Nat)
deriving DecidableEq

/-- `RleFile` from `rle.rs`. -/
structure RleFile where
  name : Option (List Nat)
  author : Option (List Nat)
  offset : Option (Int × Int)
  set : RuleSet
deriving DecidableEq

/-- `RleFile::default()` (the crate's default rule is `b3/s23`). -/
def RleFile.init : RleFile := ⟨none, none, none, b3s23⟩

/-- `RleCommentLine` from `rle.rs`. -/
inductive RleCommentLine where
  | comment
  | name (nm : List Nat)
  | author (au : List Nat)
  | offset (x y : Int)
  | ruleSet (set : RuleSet)
deriving DecidableEq

/-- `read_coordinates` from `rle.rs`. -/
def read_coordinates (bytes : List Nat) :
    Except LErr ((Int × Int) × List Nat) :=
  match ParseUtil.expect 120 bytes with
  | .error e => .error (.parseErr e)
  | .ok bytes =>
    let bytes := ParseUtil.take_ws bytes
    match ParseUtil.expect 61 bytes with
    | .error e => .error (.parseErr e)
    | .ok bytes =>
      let bytes := ParseUtil.take_ws bytes
      match ParseUtil.take_with 44 bytes with
      | (none, _) => .error .coordNoX
      | (some x_bytes, bytes) =>
        match ParseUtil.parseSigned (2 ^ 127) x_bytes with
        | none => .error (.coordParseX x_bytes)
        | some x =>
          let bytes := ParseUtil.take_ws bytes
          match ParseUtil.expect 121 bytes with
          | .error e => .error (.parseErr e)
          | .ok bytes =>
            let bytes := ParseUtil.take_ws bytes
            match ParseUtil.expect 61 bytes with
            | .error e => .error (.parseErr e)
            | .ok bytes =>
              let bytes := ParseUtil.take_ws bytes
              match ParseUtil.take_until_fn (fun b => b == 44 || b == 10) bytes with
              | (none, _) => .error .coordNoY
              | (some y_bytes, bytes) =>
                match ParseUtil.parseSigned (2 ^ 127) y_bytes with
                | none => .error (.coordParseY y_bytes)
                | some y => .ok ((x, y), bytes)

/-- `read_line_comment` from `rle.rs`: `#r` lines and unknown types `bail!`. -/
def read_line_comment (bytes : List Nat) :
    Except LErr (Option RleCommentLine × List Nat) :=
  match ParseUtil.expect 35 bytes with
  | .error _ => .ok (none, bytes)
  | .ok bytes =>
    match ParseUtil.take_1 bytes with
    | (none, _) => .error .noCommentType
    | (some b, bytes) =>
      if b = 67 ∨ b = 99 then
        let p := ParseUtil.take_with 10 bytes
        .ok (some .comment, p.2)
      else if b = 78 then
        let bytes := ParseUtil.take_ws bytes
        match ParseUtil.take_with 10 bytes with
        | (none, _) => .error .emptyName
        | (some nm, bytes) => .ok (some (.name nm), bytes)
      else if b = 79 then
        let bytes := ParseUtil.take_ws bytes
        match ParseUtil.take_with 10 bytes with
        | (none, _) => .error .emptyAuthor
        | (some au, bytes) => .ok (some (.author au), bytes)
      else if b = 82 ∨ b = 80 then
        let bytes := ParseUtil.take_ws bytes
        match read_coordinates bytes with
        | .error _ => .error .invalidCoordinates
        | .ok ((x, y), bytes) => .ok (some (.offset x y), bytes)
      else if b = 114 then .error .rulesUnsupported
      else .error (.unrecognizedCommentType b)

/-- `RleHeaderLine` from `rle.rs`. -/
structure RleHeaderLine where
  x : Int
  y : Int
  set : Option RuleSet
deriving DecidableEq

/-- `read_line_header` from `rle.rs` (the `take_1` after `read_coordinates`
is genuinely unreachable; the header rule is parsed with the `rules.rs`
`from_str`). -/
def read_line_header (bytes : List Nat) :
    PR LErr (Option RleHeaderLine × List Nat) :=
  match read_coordinates bytes with
  | .error _ => .ok (none, bytes)
  | .ok ((x, y), bytes) =>
    match ParseUtil.take_1 bytes with
    | (none, _) => .crashed
    | (some b, bytes) =>
      if b = 44 then
        let bytes := ParseUtil.take_ws bytes
        match ParseUtil.expect_slice [114, 117, 108, 101] bytes with
        | .error e => .err (.parseErr e)
        | .ok bytes =>
          let bytes := ParseUtil.take_ws bytes
          match ParseUtil.expect 61 bytes with
          | .error e => .err (.parseErr e)
          | .ok bytes =>
            let bytes := ParseUtil.take_ws bytes
            match ParseUtil.take_until_ws bytes with
            | (none, _) => .err .headerNoRule
            | (some rule_bs, bytes) =>
              match RuleSet.from_str rule_bs with
              | .error _ => .err (.headerRuleInvalid rule_bs)
              | .ok rule => .ok (some ⟨x, y, some rule⟩, bytes)
      else if b = 10 then .ok (some ⟨x, y, none⟩, bytes)
      else .err (.headerInvalidToken b)

/-- The payload loop of `read_encoding` from `rle.rs`: only `\n` is skipped,
a repeat count cut off by a newline is an error here, but a digit run that
reaches the end of input still hits the source's `unreachable!`. -/
def read_encodingLoop (dx dy : Int) :
    Nat → List Nat → Nat → Int → Int → List (Int × Int) → PR LErr (List (Int × Int))
  | 0, _, _, _, _, _ => .crashed
  | fuel + 1, bytes, rep, x, y, acc =>
    match ParseUtil.peek_1 bytes with
    | none => .err .encodingEof
    | some b =>
      if b = 10 then
        read_encodingLoop dx dy fuel (ParseUtil.take_1 bytes).2 rep x y acc
      else if b = 33 then .ok acc
      else if b = 98 then
        read_encodingLoop dx dy fuel (ParseUtil.take_1 bytes).2 1 (x + (rep : Int)) y acc
      else if b = 111 then
        let emits := (List.range rep).map (fun i => (dx + x + (i : Int), dy + y))
        read_encodingLoop dx dy fuel (ParseUtil.take_1 bytes).2 1 (x + (rep : Int)) y (acc ++ emits)
      else if b = 36 then
        read_encodingLoop dx dy fuel (ParseUtil.take_1 bytes).2 1 0 (y - (rep : Int)) acc
      else if isDigitByte b then
        match ParseUtil.take_until_fn (fun a => !isDigitByte a) bytes with
        | (none, _) => .crashed
        | (some n, rest) =>
          if ParseUtil.peek_1 rest = some 10 then .err .encodingCountNewline
          else
            match ParseUtil.parseUnsigned (2 ^ 64) n with
            | none => .err (.encodingRunLength n)
            | some rep2 => read_encodingLoop dx dy fuel rest rep2 x y acc
      else .err (.encodingUnrecognized b)

/-- `read_encoding` from `rle.rs`. -/
def read_encoding (bytes : List Nat) (dx dy : Int) : PR LErr (List (Int × Int)) :=
  read_encodingLoop dx dy (bytes.length + 1) bytes 1 0 0 []

/-- The comment-line loop of `read_rle` from `rle.rs`: a duplicated
name/author/offset line is an error (`bail!`). -/
def read_rleLoop : Nat → RleFile → List Nat → PR LErr (RleFile × List Nat)
  | 0, _, _ => .crashed
  | fuel + 1, file, bytes =>
    match read_line_comment bytes with
    | .error e => .err e
    | .ok (none, _) => .ok (file, bytes)
    | .ok (some line, rest) =>
      match line with
      | .comment => read_rleLoop fuel file rest
      | .name nm =>
        if file.name.isSome then .err .nameAlreadyDefined
        else read_rleLoop fuel { file with name := some nm } rest
      | .author au =>
        if file.author.isSome then .err .authorAlreadyDefined
        else read_rleLoop fuel { file with author := some au } rest
      | .offset x y =>
        if file.offset.isSome then .err .offsetAlreadyDefined
        else read_rleLoop fuel { file with offset := some (x, y) } rest
      | .ruleSet s => read_rleLoop fuel { file with set := s } rest

/-- `read_rle` from `rle.rs`; a header offset when one is already defined is
also an error here. -/
def read_rle (bytes : List Nat) : PR LErr (RleFile × List (Int × Int)) :=
  match read_rleLoop (bytes.length + 1) RleFile.init bytes with
  | .crashed => .crashed
  | .err e => .err e
  | .ok (file, bytes) =>
    match read_line_header bytes with
    | .crashed => .crashed
    | .err e => .err e
    | .ok (hdr, bytes2) =>
      match hdr with
      | none =>
        let off := file.offset.getD (0, 0)
        match read_encoding bytes off.1 off.2 with
        | .crashed => .crashed
        | .err e => .err e
        | .ok emits => .ok (file, emits)
      | some h =>
        if file.offset.isSome then .err .offsetAlreadyDefined
        else
          let file := { file with offset := some (h.x, h.y) }
          let off := file.offset.getD (0, 0)
          match read_encoding bytes2 off.1 off.2 with
          | .crashed => .crashed
          | .err e => .err e
          | .ok emits => .ok (file, emits)

end Rle

/-! ### Concrete values used in the verification. -/

/-- A leaf holding a horizontal blinker in row 3, columns 2–4 of its 8×8 grid
(`nw = 0b11`, `ne = 0b1000`). -/
def blinker : Cell := Cell.leaf 3 8 0 0

/-- A small world: void root at index 1, depth 1. -/
def w6 : World := ⟨fun _ => 0, 1, [Cell.void, Cell.void], 1⟩

/-- The world `w6.next` produces. -/
def w6n : World :=
  ⟨fun _ => 0, 4, [Cell.void, Cell.void, Cell.void, Cell.void, ⟨0, 1, 2, 3⟩], 1⟩

/-- A small world: void root at index 1, depth 0. -/
def w7 : World := ⟨fun _ => 0, 1, [Cell.void, Cell.void], 0⟩

/-- The world `World::new(3, "b3s23")` builds. -/
def w10 : World := ⟨RuleSet.compute_rules b3s23, 1, [Cell.void, Cell.void], 3⟩

/-- The world `w7.grow(1)` produces. -/
def w7g : World :=
  ⟨fun _ => 0, 5,
   [Cell.void, Cell.void, Cell.void, Cell.void, Cell.void, ⟨1, 2, 3, 4⟩], 1⟩

/-- The ASCII bytes of the rule string `b3s23`. -/
def b3s23Bytes : List Nat := [98, 51, 115, 50, 51]

/-- An RLE input whose pattern name is defined twice:
`#N a`, `#N b`, then the terminating `!`. -/
def dupNameInput : List Nat := [35, 78, 32, 97, 10, 35, 78, 32, 98, 10, 33]

/-- A parsed comment line that defines the pattern name. -/
def isNameLine : Rle.RleCommentLine → Bool
  | .name _ => true
  | _ => false

/-- A parsed comment line that defines the author. -/
def isAuthorLine : Rle.RleCommentLine → Bool
  | .author _ => true
  | _ => false

/-- A parsed comment line that defines the offset. -/
def isOffsetLine : Rle.RleCommentLine → Bool
  | .offset _ _ => true
  | _ => false

/-- The stream of comment lines the `rle.rs` loop consumes:
`read_line_comment` iterated until it yields no line (the loop's own
stopping points: a non-`#` line or a malformed line). -/
def commentLines : Nat → List Nat → List Rle.RleCommentLine
  | 0, _ => []
  | fuel + 1, bytes =>
    match Rle.read_line_comment bytes with
    | .error _ => []
    | .ok (none, _) => []
    | .ok (some line, rest) => line :: commentLines fuel rest

/-- The leading comment lines define the name, the author or the offset more
than once. -/
def hasDupMeta (ls : List Rle.RleCommentLine) : Bool :=
  decide (2 ≤ ls.countP isNameLine) || decide (2 ≤ ls.countP isAuthorLine) ||
    decide (2 ≤ ls.countP isOffsetLine)

/-! ## Theorems

### Kernighan's loop computes population count -/

theorem cbAux_zero (f : Nat) : cbAux f 0 = 0 := by
  cases f <;> simp [cbAux]

theorem and_pred_lt {x : Nat} (hx : x ≠ 0) : x &&& (x - 1) < x :=
  Nat.lt_of_le_of_lt Nat.and_le_right (by omega)

theorem cbAux_congr : ∀ x f₁ f₂, x ≤ f₁ → x ≤ f₂ → cbAux f₁ x = cbAux f₂ x := by
  intro x
  induction x using Nat.strong_induction_on with
  | _ x ih =>
    intro f₁ f₂ h₁ h₂
    by_cases hx : x = 0
    · subst hx; rw [cbAux_zero, cbAux_zero]
    · obtain ⟨g₁, rfl⟩ : ∃ g, f₁ = g + 1 := ⟨f₁ - 1, by omega⟩
      obtain ⟨g₂, rfl⟩ : ∃ g, f₂ = g + 1 := ⟨f₂ - 1, by omega⟩
      simp only [cbAux, hx, if_false]
      have hlt := and_pred_lt hx
      have hle : x &&& (x - 1) ≤ x - 1 := Nat.and_le_right
      rw [ih (x &&& (x - 1)) hlt g₁ g₂ (by omega) (by omega)]

theorem count_bits_eq (x : Nat) :
    count_bits x = if x = 0 then 0 else count_bits (x &&& (x - 1)) + 1 := by
  by_cases hx : x = 0
  · subst hx; simp [count_bits, cbAux_zero]
  · obtain ⟨g, hg⟩ : ∃ g, x = g + 1 := ⟨x - 1, by omega⟩
    simp only [hx, if_false, count_bits]
    conv => left; rw [hg]
    simp only [cbAux, hg.symm, hx, if_false]
    have hle : x &&& (x - 1) ≤ x - 1 := Nat.and_le_right
    rw [cbAux_congr (x &&& (x - 1)) g (x &&& (x - 1)) (by omega) (le_refl _)]

theorem and_pred_even {y : Nat} (hy : 1 ≤ y) :
    (2 * y) &&& (2 * y - 1) = 2 * (y &&& (y - 1)) := by
  have hmod : ((2 * y) &&& (2 * y - 1)) % 2 = 0 := by
    have h1 := @Nat.and_mod_two_eq_one (2 * y) (2 * y - 1)
    omega
  have hdiv : ((2 * y) &&& (2 * y - 1)) / 2 = y &&& (y - 1) := by
    have h1 : (2 * y) / 2 = y := by omega
    have h2 : (2 * y - 1) / 2 = y - 1 := by omega
    rw [Nat.and_div_two, h1, h2]
  omega

theorem and_pred_odd (y : Nat) : (2 * y + 1) &&& (2 * y) = 2 * y := by
  have hmod : ((2 * y + 1) &&& (2 * y)) % 2 = 0 := by
    have h1 := @Nat.and_mod_two_eq_one (2 * y + 1) (2 * y)
    omega
  have hdiv : ((2 * y + 1) &&& (2 * y)) / 2 = y := by
    have h1 : (2 * y + 1) / 2 = y := by omega
    have h2 : (2 * y) / 2 = y := by omega
    rw [Nat.and_div_two, h1, h2, Nat.and_self]
  omega

theorem count_bits_two_mul (y : Nat) : count_bits (2 * y) = count_bits y := by
  induction y using Nat.strong_induction_on with
  | _ y ih =>
    by_cases hy : y = 0
    · subst hy; rfl
    · rw [count_bits_eq (2 * y), if_neg (by omega), and_pred_even (by omega),
        ih (y &&& (y - 1)) (and_pred_lt hy), count_bits_eq y, if_neg hy]

theorem count_bits_two_mul_add_one (y : Nat) :
    count_bits (2 * y + 1) = count_bits y + 1 := by
  rw [count_bits_eq (2 * y + 1), if_neg (by omega)]
  have h : (2 * y + 1) - 1 = 2 * y := by omega
  rw [h, and_pred_odd, count_bits_two_mul]

theorem count_bits_decomp (x : Nat) : count_bits x = count_bits (x / 2) + x % 2 := by
  rcases Nat.mod_two_eq_zero_or_one x with h | h
  · have hx : x = 2 * (x / 2) := by omega
    conv => left; rw [hx]
    rw [count_bits_two_mul]
    omega
  · have hx : x = 2 * (x / 2) + 1 := by omega
    conv => left; rw [hx]
    rw [count_bits_two_mul_add_one, h]

theorem count_bits_zero : count_bits 0 = 0 := rfl

theorem count_bits_or_disjoint :
    ∀ n a b, a + b = n → a &&& b = 0 → count_bits (a ||| b) = count_bits a + count_bits b := by
  intro n
  induction n using Nat.strong_induction_on with
  | _ n ih =>
    intro a b hn hd
    by_cases h0 : a = 0 ∧ b = 0
    · obtain ⟨rfl, rfl⟩ := h0; rfl
    · have hmodor := @Nat.or_mod_two_eq_one a b
      have hmodand := @Nat.and_mod_two_eq_one a b
      have hor2 : (a ||| b) % 2 = a % 2 + b % 2 := by
        rcases Nat.mod_two_eq_zero_or_one a with ha | ha <;>
          rcases Nat.mod_two_eq_zero_or_one b with hb | hb <;> omega
      have hd2 : (a / 2) &&& (b / 2) = 0 := by
        rw [← Nat.and_div_two, hd]
      have hlt : a / 2 + b / 2 < n := by omega
      have hrec := ih (a / 2 + b / 2) hlt (a / 2) (b / 2) rfl hd2
      rw [count_bits_decomp (a ||| b), Nat.or_div_two, hrec, hor2,
        count_bits_decomp a, count_bits_decomp b]
      omega

theorem count_bits_two_pow (i : Nat) : count_bits (2 ^ i) = 1 := by
  induction i with
  | zero => rfl
  | succ i ih => rw [Nat.pow_succ, Nat.mul_comm, count_bits_two_mul, ih]

theorem count_bits_and_two_pow (c i : Nat) :
    count_bits (c &&& 2 ^ i) = (c.testBit i).toNat := by
  rw [Nat.and_two_pow]
  cases h : c.testBit i
  · simp [count_bits_zero]
  · simp [count_bits_two_pow]

theorem testBit_maskOf (l : List Nat) (k : Nat) :
    (maskOf l).testBit k = decide (k ∈ l) := by
  induction l with
  | nil => simp [maskOf]
  | cons i l ih =>
    simp only [maskOf, List.foldr_cons] at ih ⊢
    rw [Nat.testBit_or, ih, Nat.testBit_two_pow]
    simp [List.mem_cons, eq_comm]

theorem and_maskOf_disjoint (c i : Nat) (l : List Nat) (hnotin : i ∉ l) :
    (c &&& 2 ^ i) &&& (c &&& maskOf l) = 0 := by
  apply Nat.eq_of_testBit_eq
  intro k
  simp only [Nat.testBit_and, Nat.zero_testBit, Nat.testBit_two_pow, testBit_maskOf]
  by_cases hik : i = k
  · simp [← hik, hnotin]
  · simp [hik]

theorem count_bits_and_maskOf :
    ∀ l : List Nat, l.Nodup → ∀ c,
      count_bits (c &&& maskOf l) = (l.map fun i => (c.testBit i).toNat).sum := by
  intro l
  induction l with
  | nil => intro _ c; simp [maskOf, count_bits_zero]
  | cons i l ih =>
    intro hnd c
    have hnotin : i ∉ l := (List.nodup_cons.mp hnd).1
    have hnd' : l.Nodup := (List.nodup_cons.mp hnd).2
    have hsplit : c &&& maskOf (i :: l) = (c &&& 2 ^ i) ||| (c &&& maskOf l) := by
      simp only [maskOf, List.foldr_cons]
      exact Nat.and_or_distrib_left c (2 ^ i) (maskOf l)
    rw [hsplit, count_bits_or_disjoint ((c &&& 2 ^ i) + (c &&& maskOf l)) _ _ rfl
      (and_maskOf_disjoint c i l hnotin), count_bits_and_two_pow, ih hnd' c]
    simp

/-! ### The rule table against the spec (C2, C4) -/

theorem specCount_eq_shift0 (c : Nat) :
    specCount c 2 2 = count_bits (c &&& u16 (NBHD_MASK <<< 0)) := by
  have hm : u16 (NBHD_MASK <<< 0) = maskOf [10, 9, 8, 6, 4, 2, 1, 0] := by decide
  rw [hm, count_bits_and_maskOf _ (by decide) c]
  simp [specCount, neighborsOf, specAlive]

theorem specCount_eq_shift1 (c : Nat) :
    specCount c 2 1 = count_bits (c &&& u16 (NBHD_MASK <<< 1)) := by
  have hm : u16 (NBHD_MASK <<< 1) = maskOf [11, 10, 9, 7, 5, 3, 2, 1] := by decide
  rw [hm, count_bits_and_maskOf _ (by decide) c]
  simp [specCount, neighborsOf, specAlive]

theorem specCount_eq_shift4 (c : Nat) :
    specCount c 1 2 = count_bits (c &&& u16 (NBHD_MASK <<< 4)) := by
  have hm : u16 (NBHD_MASK <<< 4) = maskOf [14, 13, 12, 10, 8, 6, 5, 4] := by decide
  rw [hm, count_bits_and_maskOf _ (by decide) c]
  simp [specCount, neighborsOf, specAlive]

theorem specCount_eq_shift5 (c : Nat) :
    specCount c 1 1 = count_bits (c &&& u16 (NBHD_MASK <<< 5)) := by
  have hm : u16 (NBHD_MASK <<< 5) = maskOf [15, 14, 13, 11, 9, 7, 6, 5] := by decide
  rw [hm, count_bits_and_maskOf _ (by decide) c]
  simp [specCount, neighborsOf, specAlive]

theorem and_pow_eq_zero (c k : Nat) : (c &&& 2 ^ k == 0) = !c.testBit k := by
  rw [Nat.and_two_pow]
  have h2 : 0 < 2 ^ k := Nat.two_pow_pos k
  cases h : c.testBit k
  · simp
  · simp only [Bool.toNat_true, Nat.one_mul, Bool.not_true]
    exact beq_eq_false_iff_ne.mpr (by omega)

theorem pow_test_eq (m n : Nat) (hn : n < 16) :
    (u16 (1 <<< n) &&& m == u16 (1 <<< n)) = m.testBit n := by
  have hpow : (2 : Nat) ^ n < 65536 := by
    calc (2 : Nat) ^ n < 2 ^ 16 := Nat.pow_lt_pow_right (by omega) hn
    _ = 65536 := by norm_num
  have h1 : u16 (1 <<< n) = 2 ^ n := by
    rw [Nat.shiftLeft_eq, Nat.one_mul]
    exact Nat.mod_eq_of_lt hpow
  rw [h1, Nat.two_pow_and]
  have h2 : 0 < 2 ^ n := Nat.two_pow_pos n
  cases h : m.testBit n
  · simp only [Bool.toNat_false, Nat.mul_zero]
    exact beq_eq_false_iff_ne.mpr (by omega)
  · simp

theorem toNat_le_one (b : Bool) : b.toNat ≤ 1 := by cases b <;> simp

theorem specCount_le (c r col : Nat) : specCount c r col ≤ 8 := by
  simp only [specCount, neighborsOf, List.map_cons, List.map_nil, List.sum_cons,
    List.sum_nil]
  have h1 := toNat_le_one (specAlive c (r - 1) (col - 1))
  have h2 := toNat_le_one (specAlive c (r - 1) col)
  have h3 := toNat_le_one (specAlive c (r - 1) (col + 1))
  have h4 := toNat_le_one (specAlive c r (col - 1))
  have h5 := toNat_le_one (specAlive c r (col + 1))
  have h6 := toNat_le_one (specAlive c (r + 1) (col - 1))
  have h7 := toNat_le_one (specAlive c (r + 1) col)
  have h8 := toNat_le_one (specAlive c (r + 1) (col + 1))
  omega

theorem applyShift_eq_specPos (b s c res shift r col : Nat)
    (hcm : u16 (CELL_MASK <<< shift) = 2 ^ (15 - (4 * r + col)))
    (hcnt : specCount c r col = count_bits (c &&& u16 (NBHD_MASK <<< shift))) :
    applyShift b s c res shift = specPos b s c r col res := by
  have hbound : specCount c r col ≤ 8 := specCount_le c r col
  have hb := pow_test_eq b (specCount c r col) (by omega)
  have hs2 := pow_test_eq s (specCount c r col) (by omega)
  simp only [applyShift, specPos, hcm, ← hcnt, and_pow_eq_zero, hb, hs2]
  have hsa : specAlive c r col = c.testBit (15 - (4 * r + col)) := rfl
  cases h : c.testBit (15 - (4 * r + col)) <;> simp [hsa, h]

/-- Claim C2: for every birth/survival rule set and every 16-bit configuration
`c`, the compiled table entry at `c` sets, for each of the four central
positions, its result bit iff the position is dead and its eight-neighbour
count is in the birth set, or alive and the count is in the survival set
(cells outside the central 2×2 counting as neighbours). -/
theorem c2_next_matches_spec (rs : RuleSet) (c : Nat) (_hc : c < 65536) :
    rs.next c = specNext rs.births rs.survivals c := by
  unfold RuleSet.next specNext
  simp only [List.foldl_cons, List.foldl_nil]
  rw [applyShift_eq_specPos _ _ _ _ 0 2 2 (by decide) (specCount_eq_shift0 c),
    applyShift_eq_specPos _ _ _ _ 1 2 1 (by decide) (specCount_eq_shift1 c),
    applyShift_eq_specPos _ _ _ _ 4 1 2 (by decide) (specCount_eq_shift4 c),
    applyShift_eq_specPos _ _ _ _ 5 1 1 (by decide) (specCount_eq_shift5 c)]

/-- Witness for C2 at the configuration 14 and the rule `b3/s23`. -/
theorem c2_next_matches_spec_witness :
    14 < 65536 ∧ b3s23.next 14 = specNext b3s23.births b3s23.survivals 14 :=
  ⟨by norm_num, c2_next_matches_spec b3s23 14 (by norm_num)⟩

/-- Claim C4 counterexample: the `b3/s23` table entry at configuration 14 is
64, whose set bit 6 is none of the claimed positions 5, 3, 11, 13. -/
theorem c4_counterexample :
    RuleSet.next b3s23 14 = 64 ∧ Nat.testBit 64 6 = true ∧
    ¬ (6 = 5 ∨ 6 = 3 ∨ 6 = 11 ∨ 6 = 13) := by
  refine ⟨by decide, by decide, by decide⟩

theorem applyShift_mask (b s c res shift : Nat)
    (hs : shift = 0 ∨ shift = 1 ∨ shift = 4 ∨ shift = 5)
    (hres : res &&& 1632 = res) :
    applyShift b s c res shift &&& 1632 = applyShift b s c res shift := by
  have hcm : u16 (CELL_MASK <<< shift) &&& 1632 = u16 (CELL_MASK <<< shift) := by
    rcases hs with rfl | rfl | rfl | rfl <;> decide
  have hor : (res ||| u16 (CELL_MASK <<< shift)) &&& 1632
      = res ||| u16 (CELL_MASK <<< shift) := by
    rw [Nat.and_distrib_right, hres, hcm]
  simp only [applyShift]
  split
  · split
    · exact hor
    · exact hres
  · split
    · exact hor
    · exact hres

/-- Claim C4 (amended): every rule-table entry has set bits only in positions
5, 6, 9 and 10 — the central 2×2 of the result word (mask `0x0660`). -/
theorem c4_entry_bits_in_center (rs : RuleSet) (c : Nat) :
    rs.next c &&& 1632 = rs.next c := by
  unfold RuleSet.next
  simp only [List.foldl_cons, List.foldl_nil]
  apply applyShift_mask _ _ _ _ 5 (by tauto)
  apply applyShift_mask _ _ _ _ 4 (by tauto)
  apply applyShift_mask _ _ _ _ 1 (by tauto)
  apply applyShift_mask _ _ _ _ 0 (by tauto)
  exact Nat.zero_and 1632

/-! ### The leaf result (C1, C5) -/

/-- Claim C1 (code bug): with the `b3/s23` table from `compute_rules`, the
leaf holding a horizontal blinker (row 3, columns 2–4) returns `0x4440` — the
central 4×4 after ONE generation (a vertical blinker) — whereas two
generations of the rule's outer-totalistic semantics on the 8×8 grid give the
central 4×4 `0x0E00` (the horizontal blinker again): `compute_leaf_res`
applies the rule table once, not twice. -/
theorem c1_leaf_res_one_generation :
    Cell.compute_leaf_res (RuleSet.compute_rules b3s23) blinker = 17472 ∧
    oneGenCenter b3s23.births b3s23.survivals blinker = 17472 ∧
    twoGenCenter b3s23.births b3s23.survivals blinker = 3584 ∧
    (17472 : Nat) ≠ 3584 :=
  ⟨by decide, by decide, by decide, by decide⟩

/-- Claim C5 (code bug): `Cell::compute_leaf_res` does not restore the leaf:
`mask_leaf` is `nw &= LEAF_MASK` (not `|=`), so after the call the NW word of
the leaf `leaf(1, 2, 3, 4)` is zero — the NW quadrant bitmap is destroyed,
the tag bit is clear, and `is_leaf` no longer holds. -/
theorem c5_leaf_not_restored :
    (Cell.leaf 1 2 3 4).is_leaf = true ∧
    (Cell.leaf 1 2 3 4).nw = 2 ^ 63 + 1 ∧
    (Cell.compute_leaf_res_run (RuleSet.compute_rules b3s23) (Cell.leaf 1 2 3 4)).2
      = ⟨0, 2, 3, 4⟩ ∧
    Cell.is_leaf ⟨0, 2, 3, 4⟩ = false :=
  ⟨by decide, by decide, by decide, by decide⟩

/-! ### The world facade (C6, C10, C3) -/

theorem grow_succ_eq (k : Nat) (w : World) :
    World.grow (k + 1) w = (w.buf.getLast?).bind fun rc =>
      if w.depth = 255 then none else World.grow k (growStep rc w) := by
  cases hq : w.buf.getLast? with
  | none => simp only [World.grow, hq, Option.bind_eq_bind, Option.none_bind]
  | some rc =>
    simp only [World.grow, hq, Option.bind_eq_bind, Option.some_bind]
    rfl

theorem grow_depth : ∀ k w w', World.grow k w = some w' → w'.depth = w.depth + k := by
  intro k
  induction k with
  | zero =>
    intro w w' h
    simp only [World.grow] at h
    cases h
    rfl
  | succ k ih =>
    intro w w' h
    rw [grow_succ_eq] at h
    cases hq : w.buf.getLast? with
    | none => rw [hq] at h; simp at h
    | some rc =>
      rw [hq] at h
      simp only [Option.bind_eq_bind, Option.some_bind] at h
      by_cases hd : w.depth = 255
      · rw [if_pos hd] at h; simp at h
      · rw [if_neg hd] at h
        have h2 : w'.depth = w.depth + 1 + k := ih _ _ h
        omega

/-- Claim C6: whenever `World::next` returns normally, the stored depth is
unchanged: the result computation decrements it and the final `grow(1)`
restores it. -/
theorem c6_next_preserves_depth (fuel : Nat) (w w' : World)
    (h : World.next fuel w = some w') : w'.depth = w.depth := by
  simp only [World.next] at h
  cases hq : w.buf.getLast? with
  | none => rw [hq] at h; simp at h
  | some rc =>
    rw [hq] at h
    simp only [Option.bind_eq_bind, Option.some_bind] at h
    cases hp : compute_res w.rules fuel rc w.buf.dropLast with
    | none => rw [hp] at h; simp at h
    | some p =>
      rw [hp] at h
      simp only [Option.bind_eq_bind, Option.some_bind] at h
      by_cases hd : w.depth = 0
      · rw [if_pos hd] at h; simp at h
      · rw [if_neg hd] at h
        have h2 : w'.depth = (w.depth - 1) + 1 := grow_depth 1 _ _ h
        omega

/-- Witness for C6: one step of a small void world. -/
theorem c6_next_preserves_depth_witness :
    World.next 1 w6 = some w6n ∧ w6n.depth = w6.depth :=
  ⟨rfl, c6_next_preserves_depth 1 w6 w6n rfl⟩

theorem grow_pos_root : ∀ k w w', World.grow (k + 1) w = some w' →
    w'.root + 1 = w'.buf.length := by
  intro k
  induction k with
  | zero =>
    intro w w' h
    rw [grow_succ_eq] at h
    cases hq : w.buf.getLast? with
    | none => rw [hq] at h; simp at h
    | some rc =>
      rw [hq] at h
      simp only [Option.bind_eq_bind, Option.some_bind] at h
      by_cases hd : w.depth = 255
      · rw [if_pos hd] at h; simp at h
      · rw [if_neg hd] at h
        simp only [World.grow] at h
        cases h
        simp [growStep]
  | succ k ih =>
    intro w w' h
    rw [grow_succ_eq] at h
    cases hq : w.buf.getLast? with
    | none => rw [hq] at h; simp at h
    | some rc =>
      rw [hq] at h
      simp only [Option.bind_eq_bind, Option.some_bind] at h
      by_cases hd : w.depth = 255
      · rw [if_pos hd] at h; simp at h
      · rw [if_neg hd] at h
        exact ih _ _ h

/-- Claim C10: in every world reachable through `new`, `grow` and `next`, the
root field indexes the last element of the buffer, so the `buf.pop()` at the
start of `next` and `grow` removes exactly the root node. -/
theorem c10_root_is_last (w : World) (h : Reachable w) :
    w.root + 1 = w.buf.length := by
  induction h with
  | new d bytes w h =>
    simp only [World.new] at h
    cases hr : RuleSet.from_str bytes with
    | error e => rw [hr] at h; cases h
    | ok rs =>
      rw [hr] at h
      cases h
      rfl
  | grow k w w' _ hg ih =>
    cases k with
    | zero => simp only [World.grow] at hg; cases hg; exact ih
    | succ k => exact grow_pos_root k w w' hg
  | next fuel w w' _ hn ih =>
    simp only [World.next] at hn
    cases hq : w.buf.getLast? with
    | none => rw [hq] at hn; simp at hn
    | some rc =>
      rw [hq] at hn
      simp only [Option.bind_eq_bind, Option.some_bind] at hn
      cases hp : compute_res w.rules fuel rc w.buf.dropLast with
      | none => rw [hp] at hn; simp at hn
      | some p =>
        rw [hp] at hn
        simp only [Option.bind_eq_bind, Option.some_bind] at hn
        by_cases hd : w.depth = 0
        · rw [if_pos hd] at hn; simp at hn
        · rw [if_neg hd] at hn
          exact grow_pos_root 0 _ w' hn

/-- Witness for C10: the world built by `World::new(3, "b3s23")`. -/
theorem c10_root_is_last_witness : w10.root + 1 = w10.buf.length :=
  c10_root_is_last w10 (Reachable.new 3 b3s23Bytes w10 rfl)

/-- Claim C3 counterexample: `World::new` itself stores the void cell at both
index 0 and index 1 (two structurally equal nodes in two slots), and the push
used by the result computation returns a fresh index even when a structurally
equal cell was just inserted: the two insertions return 0 and then 1. -/
theorem c3_counterexample :
    ((World.new 3 b3s23Bytes).toOption.map fun w => w.buf)
      = some [Cell.void, Cell.void] ∧
    [Cell.void, Cell.void].getD 0 Cell.void = [Cell.void, Cell.void].getD 1 Cell.void ∧
    (pushCell [] Cell.void).1 = 0 ∧
    (pushCell (pushCell [] Cell.void).2 Cell.void).1 = 1 :=
  ⟨rfl, rfl, rfl, rfl⟩

/-- Claim C3 (amended): insertion never de-duplicates: the push performed by
the result computation returns the fresh index `buf.length` and appends, so a
second insertion of a structurally equal cell returns a different index, and
`Cell::grow` appends its four children unconditionally. -/
theorem c3_insert_appends (buf : List Cell) (c : Cell) :
    (pushCell buf c).1 = buf.length ∧
    (pushCell buf c).2 = buf ++ [c] ∧
    (pushCell (pushCell buf c).2 c).1 ≠ (pushCell buf c).1 ∧
    ((c.grow buf).2).length = buf.length + 4 := by
  refine ⟨rfl, rfl, ?_, ?_⟩
  · simp [pushCell]
  · simp [Cell.grow]

/-! ### The RLE payload parser (C8) -/

/-- Claim C8 (code bug): `read_encoding` handles the token stream as claimed
on well-formed input (see the last two conjuncts), but an input that ends
inside a run count does not yield an error: `take_until_fn` returns `None`
when the digits run to the end of the input, which hits the source's
`unreachable!("We peeked and found a digit")` — a panic, not an error.  A
count followed by a newline likewise panics. -/
theorem c8_truncated_count_panics :
    ParseRle.read_encoding [51] 0 0 = .crashed ∧
    ParseRle.read_encoding [51, 10, 111, 33] 0 0 = .crashed ∧
    ParseRle.read_encoding [111] 0 0 = .err .unexpectedEof ∧
    ParseRle.read_encoding [98, 111, 33] 0 0 = .ok [(1, 0)] ∧
    ParseRle.read_encoding [51, 111, 13, 10, 36, 111, 33] 0 0
      = .ok [(0, 0), (1, 0), (2, 0), (0, -1)] :=
  ⟨rfl, rfl, rfl, rfl, rfl⟩

/-! ### Duplicate metadata in the two RLE parsers (C9) -/

/-- Claim C9 counterexample: the current parser (`parse_rle.rs`) accepts an
input in which the pattern name is defined twice (`#N a`, `#N b`), returning
success with the latest name rather than an error. -/
theorem c9_counterexample :
    ParseRle.read_rle dupNameInput
      = .ok (⟨some [98], none, none, B3S23X⟩, []) := rfl

/-- One unfolding of the `rle.rs` comment-line loop. -/
theorem rleLoop_succ (fuel : Nat) (file : Rle.RleFile) (bytes : List Nat) :
    Rle.read_rleLoop (fuel + 1) file bytes =
      match Rle.read_line_comment bytes with
      | .error e => .err e
      | .ok (none, _) => .ok (file, bytes)
      | .ok (some line, rest) =>
        match line with
        | .comment => Rle.read_rleLoop fuel file rest
        | .name nm =>
          if file.name.isSome then .err .nameAlreadyDefined
          else Rle.read_rleLoop fuel { file with name := some nm } rest
        | .author au =>
          if file.author.isSome then .err .authorAlreadyDefined
          else Rle.read_rleLoop fuel { file with author := some au } rest
        | .offset x y =>
          if file.offset.isSome then .err .offsetAlreadyDefined
          else Rle.read_rleLoop fuel { file with offset := some (x, y) } rest
        | .ruleSet s => Rle.read_rleLoop fuel { file with set := s } rest := rfl

/-- One unfolding of the comment-line stream. -/
theorem commentLines_succ (fuel : Nat) (bytes : List Nat) :
    commentLines (fuel + 1) bytes =
      match Rle.read_line_comment bytes with
      | .error _ => []
      | .ok (none, _) => []
      | .ok (some line, rest) => line :: commentLines fuel rest := rfl

/-- Unfolding of the `rle.rs` comment-line loop when the line is a name. -/
theorem rleLoop_name_step (fuel : Nat) (file : Rle.RleFile) (bytes rest2 nm : List Nat)
    (h : Rle.read_line_comment bytes = .ok (some (.name nm), rest2)) :
    Rle.read_rleLoop (fuel + 1) file bytes =
      if file.name.isSome then .err .nameAlreadyDefined
      else Rle.read_rleLoop fuel { file with name := some nm } rest2 := by
  rw [rleLoop_succ, h]

/-- Unfolding of the `rle.rs` comment-line loop when the line is an author. -/
theorem rleLoop_author_step (fuel : Nat) (file : Rle.RleFile) (bytes rest2 au : List Nat)
    (h : Rle.read_line_comment bytes = .ok (some (.author au), rest2)) :
    Rle.read_rleLoop (fuel + 1) file bytes =
      if file.author.isSome then .err .authorAlreadyDefined
      else Rle.read_rleLoop fuel { file with author := some au } rest2 := by
  rw [rleLoop_succ, h]

/-- Unfolding of the `rle.rs` comment-line loop when the line is an offset. -/
theorem rleLoop_offset_step (fuel : Nat) (file : Rle.RleFile) (bytes rest2 : List Nat)
    (x y : Int) (h : Rle.read_line_comment bytes = .ok (some (.offset x y), rest2)) :
    Rle.read_rleLoop (fuel + 1) file bytes =
      if file.offset.isSome then .err .offsetAlreadyDefined
      else Rle.read_rleLoop fuel { file with offset := some (x, y) } rest2 := by
  rw [rleLoop_succ, h]

/-- The loop errs with one of the three already-defined errors whenever the
comment lines it is about to consume, together with the metadata already in
the file state, define a name, an author or an offset twice. -/
theorem rleLoop_dup : ∀ (fuel : Nat) (file : Rle.RleFile) (bytes : List Nat),
    (2 ≤ (commentLines fuel bytes).countP isNameLine
        + (if file.name.isSome then 1 else 0) ∨
     2 ≤ (commentLines fuel bytes).countP isAuthorLine
        + (if file.author.isSome then 1 else 0) ∨
     2 ≤ (commentLines fuel bytes).countP isOffsetLine
        + (if file.offset.isSome then 1 else 0)) →
    (Rle.read_rleLoop fuel file bytes = .err .nameAlreadyDefined ∨
     Rle.read_rleLoop fuel file bytes = .err .authorAlreadyDefined ∨
     Rle.read_rleLoop fuel file bytes = .err .offsetAlreadyDefined) := by
  intro fuel
  induction fuel with
  | zero =>
    intro file bytes h
    exfalso
    have c1 : (if file.name.isSome then (1 : Nat) else 0) ≤ 1 := by split <;> omega
    have c2 : (if file.author.isSome then (1 : Nat) else 0) ≤ 1 := by split <;> omega
    have c3 : (if file.offset.isSome then (1 : Nat) else 0) ≤ 1 := by split <;> omega
    have hc : commentLines 0 bytes = [] := rfl
    rw [hc] at h
    simp only [List.countP_nil] at h
    omega
  | succ fuel ih =>
    intro file bytes h
    cases hline : Rle.read_line_comment bytes with
    | error e =>
      exfalso
      have hc : commentLines (fuel + 1) bytes = [] := by
        rw [commentLines_succ, hline]
      rw [hc] at h
      simp only [List.countP_nil] at h
      have c1 : (if file.name.isSome then (1 : Nat) else 0) ≤ 1 := by split <;> omega
      have c2 : (if file.author.isSome then (1 : Nat) else 0) ≤ 1 := by split <;> omega
      have c3 : (if file.offset.isSome then (1 : Nat) else 0) ≤ 1 := by split <;> omega
      omega
    | ok p =>
      obtain ⟨oline, rest⟩ := p
      cases oline with
      | none =>
        exfalso
        have hc : commentLines (fuel + 1) bytes = [] := by
          rw [commentLines_succ, hline]
        rw [hc] at h
        simp only [List.countP_nil] at h
        have c1 : (if file.name.isSome then (1 : Nat) else 0) ≤ 1 := by split <;> omega
        have c2 : (if file.author.isSome then (1 : Nat) else 0) ≤ 1 := by split <;> omega
        have c3 : (if file.offset.isSome then (1 : Nat) else 0) ≤ 1 := by split <;> omega
        omega
      | some line =>
        have hc : commentLines (fuel + 1) bytes = line :: commentLines fuel rest := by
          rw [commentLines_succ, hline]
        rw [hc] at h
        rw [List.countP_cons, List.countP_cons, List.countP_cons] at h
        cases line with
        | comment =>
          have hstep : Rle.read_rleLoop (fuel + 1) file bytes
              = Rle.read_rleLoop fuel file rest := by
            rw [rleLoop_succ, hline]
          rw [hstep]
          apply ih file rest
          have e1 : (if isNameLine .comment then (1 : Nat) else 0) = 0 := rfl
          have e2 : (if isAuthorLine .comment then (1 : Nat) else 0) = 0 := rfl
          have e3 : (if isOffsetLine .comment then (1 : Nat) else 0) = 0 := rfl
          rw [e1, e2, e3] at h
          omega
        | name nm =>
          rw [rleLoop_name_step fuel file bytes rest nm hline]
          cases hfn : file.name with
          | some old =>
            rw [if_pos (show (some old).isSome = true from rfl)]
            exact Or.inl rfl
          | none =>
            rw [if_neg (by simp)]
            apply ih { file with name := some nm } rest
            have e1 : (if isNameLine (.name nm) then (1 : Nat) else 0) = 1 := rfl
            have e2 : (if isAuthorLine (.name nm) then (1 : Nat) else 0) = 0 := rfl
            have e3 : (if isOffsetLine (.name nm) then (1 : Nat) else 0) = 0 := rfl
            rw [e1, e2, e3, hfn] at h
            have e4 : (if (none : Option (List Nat)).isSome then (1 : Nat) else 0)
                = 0 := rfl
            rw [e4] at h
            have g1 : (if ({ file with name := some nm } : Rle.RleFile).name.isSome
                then (1 : Nat) else 0) = 1 := rfl
            have g2 : ({ file with name := some nm } : Rle.RleFile).author
                = file.author := rfl
            have g3 : ({ file with name := some nm } : Rle.RleFile).offset
                = file.offset := rfl
            rw [g1, g2, g3]
            omega
        | author au =>
          rw [rleLoop_author_step fuel file bytes rest au hline]
          cases hfa : file.author with
          | some old =>
            rw [if_pos (show (some old).isSome = true from rfl)]
            exact Or.inr (Or.inl rfl)
          | none =>
            rw [if_neg (by simp)]
            apply ih { file with author := some au } rest
            have e1 : (if isNameLine (.author au) then (1 : Nat) else 0) = 0 := rfl
            have e2 : (if isAuthorLine (.author au) then (1 : Nat) else 0) = 1 := rfl
            have e3 : (if isOffsetLine (.author au) then (1 : Nat) else 0) = 0 := rfl
            rw [e1, e2, e3, hfa] at h
            have e4 : (if (none : Option (List Nat)).isSome then (1 : Nat) else 0)
                = 0 := rfl
            rw [e4] at h
            have g1 : (if ({ file with author := some au } : Rle.RleFile).author.isSome
                then (1 : Nat) else 0) = 1 := rfl
            have g2 : ({ file with author := some au } : Rle.RleFile).name
                = file.name := rfl
            have g3 : ({ file with author := some au } : Rle.RleFile).offset
                = file.offset := rfl
            rw [g1, g2, g3]
            omega
        | offset x y =>
          rw [rleLoop_offset_step fuel file bytes rest x y hline]
          cases hfo : file.offset with
          | some old =>
            rw [if_pos (show (some old).isSome = true from rfl)]
            exact Or.inr (Or.inr rfl)
          | none =>
            rw [if_neg (by simp)]
            apply ih { file with offset := some (x, y) } rest
            have e1 : (if isNameLine (.offset x y) then (1 : Nat) else 0) = 0 := rfl
            have e2 : (if isAuthorLine (.offset x y) then (1 : Nat) else 0) = 0 := rfl
            have e3 : (if isOffsetLine (.offset x y) then (1 : Nat) else 0) = 1 := rfl
            rw [e1, e2, e3, hfo] at h
            have e4 : (if (none : Option (Int × Int)).isSome then (1 : Nat) else 0)
                = 0 := rfl
            rw [e4] at h
            have g1 : (if ({ file with offset := some (x, y) }
                : Rle.RleFile).offset.isSome then (1 : Nat) else 0) = 1 := rfl
            have g2 : ({ file with offset := some (x, y) } : Rle.RleFile).name
                = file.name := rfl
            have g3 : ({ file with offset := some (x, y) } : Rle.RleFile).author
                = file.author := rfl
            rw [g1, g2, g3]
            omega
        | ruleSet s =>
          have hstep : Rle.read_rleLoop (fuel + 1) file bytes
              = Rle.read_rleLoop fuel { file with set := s } rest := by
            rw [rleLoop_succ, hline]
          rw [hstep]
          apply ih { file with set := s } rest
          have e1 : (if isNameLine (.ruleSet s) then (1 : Nat) else 0) = 0 := rfl
          have e2 : (if isAuthorLine (.ruleSet s) then (1 : Nat) else 0) = 0 := rfl
          have e3 : (if isOffsetLine (.ruleSet s) then (1 : Nat) else 0) = 0 := rfl
          rw [e1, e2, e3] at h
          have g1 : ({ file with set := s } : Rle.RleFile).name = file.name := rfl
          have g2 : ({ file with set := s } : Rle.RleFile).author = file.author := rfl
          have g3 : ({ file with set := s } : Rle.RleFile).offset = file.offset := rfl
          rw [g1, g2, g3]
          omega

/-- Claim C9 (amended, for the `rle.rs` variant): on every input whose leading
comment lines — in any order, with other comment lines interleaved — define
the pattern name, the author or the offset more than once, the earlier parser
returns the corresponding already-defined error instead of succeeding. -/
theorem c9_rle_dup_meta_errors (bytes : List Nat)
    (h : hasDupMeta (commentLines (bytes.length + 1) bytes) = true) :
    Rle.read_rle bytes = .err .nameAlreadyDefined ∨
    Rle.read_rle bytes = .err .authorAlreadyDefined ∨
    Rle.read_rle bytes = .err .offsetAlreadyDefined := by
  have hh : 2 ≤ (commentLines (bytes.length + 1) bytes).countP isNameLine
        + (if Rle.RleFile.init.name.isSome then 1 else 0) ∨
      2 ≤ (commentLines (bytes.length + 1) bytes).countP isAuthorLine
        + (if Rle.RleFile.init.author.isSome then 1 else 0) ∨
      2 ≤ (commentLines (bytes.length + 1) bytes).countP isOffsetLine
        + (if Rle.RleFile.init.offset.isSome then 1 else 0) := by
    simp only [hasDupMeta, Bool.or_eq_true, decide_eq_true_eq] at h
    have z1 : (if Rle.RleFile.init.name.isSome then (1 : Nat) else 0) = 0 := rfl
    have z2 : (if Rle.RleFile.init.author.isSome then (1 : Nat) else 0) = 0 := rfl
    have z3 : (if Rle.RleFile.init.offset.isSome then (1 : Nat) else 0) = 0 := rfl
    rw [z1, z2, z3]
    omega
  rcases rleLoop_dup (bytes.length + 1) Rle.RleFile.init bytes hh with hl | hl | hl
  · left; unfold Rle.read_rle; rw [hl]
  · right; left; unfold Rle.read_rle; rw [hl]
  · right; right; unfold Rle.read_rle; rw [hl]

/-- Witness for the C9 amended theorem at `#N a`, `#N b`, `!`. -/
theorem c9_rle_dup_meta_errors_witness :
    hasDupMeta (commentLines (dupNameInput.length + 1) dupNameInput) = true ∧
      (Rle.read_rle dupNameInput = .err .nameAlreadyDefined ∨
       Rle.read_rle dupNameInput = .err .authorAlreadyDefined ∨
       Rle.read_rle dupNameInput = .err .offsetAlreadyDefined) :=
  ⟨rfl, c9_rle_dup_meta_errors dupNameInput rfl⟩

/-! ### `World::grow` is the identity on centered content (C7) -/

theorem liveB_zero (buf : List Cell) (c : Cell) (x y : Int) :
    liveB buf 0 c x y = if c.is_leaf then leafLive c x y else false := rfl

theorem liveB_succ (buf : List Cell) (f : Nat) (c : Cell) (x y : Int) :
    liveB buf (f + 1) c x y =
      (if c.is_void then false
       else if c.is_leaf then leafLive c x y
       else if x < 0 then
         if y < 0 then
           liveB buf f (buf.getD c.sw Cell.void) (x + 2 ^ (f + 2)) (y + 2 ^ (f + 2))
         else
           liveB buf f (buf.getD c.nw Cell.void) (x + 2 ^ (f + 2)) (y - 2 ^ (f + 2))
       else
         if y < 0 then
           liveB buf f (buf.getD c.se Cell.void) (x - 2 ^ (f + 2)) (y + 2 ^ (f + 2))
         else
           liveB buf f (buf.getD c.ne Cell.void) (x - 2 ^ (f + 2)) (y - 2 ^ (f + 2))) := rfl

theorem consB_zero (buf : List Cell) (n : Nat) (c : Cell) :
    consB buf n 0 c =
      (if c.is_void then true else if c.is_leaf then true else false) := rfl

theorem consB_succ (buf : List Cell) (n f : Nat) (c : Cell) :
    consB buf n (f + 1) c =
      (if c.is_void then true
       else if c.is_leaf then false
       else
         decide (c.nw < n) && decide (c.ne < n) && decide (c.sw < n) && decide (c.se < n) &&
         consB buf n f (buf.getD c.nw Cell.void) && consB buf n f (buf.getD c.ne Cell.void) &&
         consB buf n f (buf.getD c.sw Cell.void) && consB buf n f (buf.getD c.se Cell.void)) :=
  rfl

theorem liveB_void (buf : List Cell) (f : Nat) (x y : Int) :
    liveB buf f Cell.void x y = false := by
  cases f with
  | zero => rfl
  | succ f => rfl

theorem consB_void (buf : List Cell) (n f : Nat) : consB buf n f Cell.void = true := by
  cases f with
  | zero => rfl
  | succ f => rfl

theorem is_void_eq {c : Cell} (h : c.is_void = true) : c = Cell.void := by
  obtain ⟨a, b, d, e⟩ := c
  simp only [Cell.is_void, Bool.and_eq_true, beq_iff_eq] at h
  obtain ⟨⟨⟨h1, h2⟩, h3⟩, h4⟩ := h
  subst h1; subst h2; subst h3; subst h4; rfl

theorem is_leaf_of_lt {m : Nat} (h : m < 2 ^ 63) (a b c : Nat) :
    Cell.is_leaf ⟨m, a, b, c⟩ = false := by
  simp only [Cell.is_leaf, LEAF_MASK]
  rw [Nat.and_two_pow, Nat.testBit_lt_two_pow h]
  decide

theorem zero_nw_not_leaf (a b c : Nat) : Cell.is_leaf ⟨0, a, b, c⟩ = false := by
  simp only [Cell.is_leaf]
  decide

theorem leaf_mask_is_leaf (a b c : Nat) : Cell.is_leaf ⟨LEAF_MASK, a, b, c⟩ = true := by
  simp only [Cell.is_leaf]
  decide

theorem or_mask_is_leaf (a b c d : Nat) :
    Cell.is_leaf ⟨a ||| LEAF_MASK, b, c, d⟩ = true := by
  simp only [Cell.is_leaf, LEAF_MASK]
  rw [Nat.and_distrib_right, Nat.and_self, Nat.and_two_pow]
  cases h : a.testBit 63 <;> decide

theorem root_not_void (n : Nat) :
    Cell.is_void ⟨n, n + 1, n + 2, n + 3⟩ = false := by
  simp only [Cell.is_void]
  have h : (n + 1 == 0) = false := by simp
  simp [h]

theorem getD_append_self (l cs : List Cell) :
    (l ++ cs).getD l.length Cell.void = cs.getD 0 Cell.void := by
  rw [List.getD_append_right l cs Cell.void l.length (Nat.le_refl _), Nat.sub_self]

theorem getD_append_add (l cs : List Cell) (i : Nat) :
    (l ++ cs).getD (l.length + i) Cell.void = cs.getD i Cell.void := by
  rw [List.getD_append_right l cs Cell.void _ (Nat.le_add_right _ _),
    Nat.add_sub_cancel_left]

/-- Extending the buffer beyond the index bound `n` changes no `consB` verdict. -/
theorem consB_append : ∀ (f : Nat) (buf ext : List Cell) (n : Nat) (c : Cell),
    n ≤ buf.length → consB (buf ++ ext) n f c = consB buf n f c := by
  intro f
  induction f with
  | zero => intro buf ext n c _; rw [consB_zero, consB_zero]
  | succ f ih =>
    intro buf ext n c hn
    rw [consB_succ, consB_succ]
    by_cases hv : c.is_void = true
    · rw [if_pos hv, if_pos hv]
    · rw [if_neg hv, if_neg hv]
      by_cases hl : c.is_leaf = true
      · rw [if_pos hl, if_pos hl]
      · rw [if_neg hl, if_neg hl]
        by_cases h1 : c.nw < n
        · by_cases h2 : c.ne < n
          · by_cases h3 : c.sw < n
            · by_cases h4 : c.se < n
              · rw [List.getD_append _ _ _ _ (lt_of_lt_of_le h1 hn),
                  List.getD_append _ _ _ _ (lt_of_lt_of_le h2 hn),
                  List.getD_append _ _ _ _ (lt_of_lt_of_le h3 hn),
                  List.getD_append _ _ _ _ (lt_of_lt_of_le h4 hn),
                  ih buf ext n _ hn, ih buf ext n _ hn, ih buf ext n _ hn,
                  ih buf ext n _ hn]
              · rw [decide_eq_false h4]; simp
            · rw [decide_eq_false h3]; simp
          · rw [decide_eq_false h2]; simp
        · rw [decide_eq_false h1]; simp

/-- Raising the index bound preserves `consB`. -/
theorem consB_mono : ∀ (f : Nat) (buf : List Cell) (n m : Nat) (c : Cell),
    n ≤ m → consB buf n f c = true → consB buf m f c = true := by
  intro f
  induction f with
  | zero => intro buf n m c _ hc; rw [consB_zero] at hc ⊢; exact hc
  | succ f ih =>
    intro buf n m c hnm hc
    rw [consB_succ] at hc ⊢
    by_cases hv : c.is_void = true
    · rw [if_pos hv]
    · rw [if_neg hv] at hc ⊢
      by_cases hl : c.is_leaf = true
      · rw [if_pos hl] at hc; exact absurd hc (by decide)
      · rw [if_neg hl] at hc ⊢
        simp only [Bool.and_eq_true, decide_eq_true_eq] at hc
        obtain ⟨⟨⟨⟨⟨⟨⟨h1, h2⟩, h3⟩, h4⟩, k1⟩, k2⟩, k3⟩, k4⟩ := hc
        simp only [Bool.and_eq_true, decide_eq_true_eq]
        exact ⟨⟨⟨⟨⟨⟨⟨lt_of_lt_of_le h1 hnm, lt_of_lt_of_le h2 hnm⟩,
          lt_of_lt_of_le h3 hnm⟩, lt_of_lt_of_le h4 hnm⟩, ih _ _ _ _ hnm k1⟩,
          ih _ _ _ _ hnm k2⟩, ih _ _ _ _ hnm k3⟩, ih _ _ _ _ hnm k4⟩

/-- A tree walk of a `consB`-consistent subtree never reads past the bound, so
extending the buffer does not change it. -/
theorem liveB_append : ∀ (f : Nat) (buf ext : List Cell) (n : Nat) (c : Cell),
    consB buf n f c = true → n ≤ buf.length → ∀ x y : Int,
    liveB (buf ++ ext) f c x y = liveB buf f c x y := by
  intro f
  induction f with
  | zero => intro buf ext n c _ _ x y; rw [liveB_zero, liveB_zero]
  | succ f ih =>
    intro buf ext n c hc hn x y
    rw [liveB_succ, liveB_succ]
    by_cases hv : c.is_void = true
    · rw [if_pos hv, if_pos hv]
    · rw [if_neg hv, if_neg hv]
      by_cases hl : c.is_leaf = true
      · rw [if_pos hl, if_pos hl]
      · rw [if_neg hl, if_neg hl]
        rw [consB_succ, if_neg hv, if_neg hl] at hc
        simp only [Bool.and_eq_true, decide_eq_true_eq] at hc
        obtain ⟨⟨⟨⟨⟨⟨⟨h1, h2⟩, h3⟩, h4⟩, k1⟩, k2⟩, k3⟩, k4⟩ := hc
        by_cases hx : x < 0
        · rw [if_pos hx, if_pos hx]
          by_cases hy : y < 0
          · rw [if_pos hy, if_pos hy,
              List.getD_append _ _ _ _ (lt_of_lt_of_le h3 hn)]
            exact ih buf ext n _ k3 hn _ _
          · rw [if_neg hy, if_neg hy,
              List.getD_append _ _ _ _ (lt_of_lt_of_le h1 hn)]
            exact ih buf ext n _ k1 hn _ _
        · rw [if_neg hx, if_neg hx]
          by_cases hy : y < 0
          · rw [if_pos hy, if_pos hy,
              List.getD_append _ _ _ _ (lt_of_lt_of_le h4 hn)]
            exact ih buf ext n _ k4 hn _ _
          · rw [if_neg hy, if_neg hy,
              List.getD_append _ _ _ _ (lt_of_lt_of_le h2 hn)]
            exact ih buf ext n _ k2 hn _ _

/-- Out of the frame of a node at fuel `f`, the walk reads nothing live. -/
theorem liveB_oob : ∀ (f : Nat) (buf : List Cell) (c : Cell) (x y : Int),
    (x < -(2 ^ (f + 2)) ∨ (2 : Int) ^ (f + 2) ≤ x ∨
      y < -(2 ^ (f + 2)) ∨ (2 : Int) ^ (f + 2) ≤ y) →
    liveB buf f c x y = false := by
  intro f
  induction f with
  | zero =>
    intro buf c x y h
    have h4 : (2 : Int) ^ (0 + 2) = 4 := by norm_num
    rw [h4] at h
    rw [liveB_zero]
    by_cases hl : c.is_leaf = true
    · rw [if_pos hl]
      simp only [leafLive]
      rw [if_neg (by omega)]
    · rw [if_neg hl]
  | succ f ih =>
    intro buf c x y h
    have hp : (2 : Int) ^ (f + 1 + 2) = 2 * 2 ^ (f + 2) := by ring
    have hpos : (0 : Int) < 2 ^ (f + 2) := by positivity
    have h4 : (4 : Int) ≤ 2 ^ (f + 2) := by
      calc (4 : Int) = 2 ^ 2 := by norm_num
      _ ≤ 2 ^ (f + 2) := pow_le_pow_right₀ (by norm_num) (by omega)
    rw [liveB_succ]
    by_cases hv : c.is_void = true
    · rw [if_pos hv]
    · rw [if_neg hv]
      by_cases hl : c.is_leaf = true
      · rw [if_pos hl]
        simp only [leafLive]
        rw [if_neg (by omega)]
      · rw [if_neg hl]
        by_cases hx : x < 0
        · rw [if_pos hx]
          by_cases hy : y < 0
          · rw [if_pos hy]; exact ih _ _ _ _ (by omega)
          · rw [if_neg hy]; exact ih _ _ _ _ (by omega)
        · rw [if_neg hx]
          by_cases hy : y < 0
          · rw [if_pos hy]; exact ih _ _ _ _ (by omega)
          · rw [if_neg hy]; exact ih _ _ _ _ (by omega)

/-- The NW frame child of a grown leaf reads the old NW quadrant. -/
theorem leafLive_nw_child (rc : Cell) (x y : Int) (hx : x < 0) (hy : 0 ≤ y) :
    leafLive ⟨LEAF_MASK, 0, 0, rc.nw &&& NOT_LEAF_MASK⟩ (x + 4) (y - 4)
      = leafLive rc x y := by
  have hz : LEAF_MASK &&& NOT_LEAF_MASK = 0 := by decide
  simp only [leafLive, hz]
  split_ifs <;>
    first
      | rfl
      | omega
      | (exfalso; omega)
      | (simp only [Nat.zero_mod, Nat.zero_testBit])
      | (congr 1 <;> omega)

/-- The NE frame child of a grown leaf reads the old NE quadrant. -/
theorem leafLive_ne_child (rc : Cell) (x y : Int) (hx : 0 ≤ x) (hy : 0 ≤ y) :
    leafLive ⟨LEAF_MASK, 0, rc.ne, 0⟩ (x - 4) (y - 4) = leafLive rc x y := by
  have hz : LEAF_MASK &&& NOT_LEAF_MASK = 0 := by decide
  simp only [leafLive, hz]
  split_ifs <;>
    first
      | rfl
      | omega
      | (exfalso; omega)
      | (simp only [Nat.zero_mod, Nat.zero_testBit])
      | (congr 1 <;> omega)

/-- The SW frame child of a grown leaf reads the old SW quadrant. -/
theorem leafLive_sw_child (rc : Cell) (x y : Int) (hx : x < 0) (hy : y < 0) :
    leafLive ⟨LEAF_MASK, rc.sw, 0, 0⟩ (x + 4) (y + 4) = leafLive rc x y := by
  have hz : LEAF_MASK &&& NOT_LEAF_MASK = 0 := by decide
  simp only [leafLive, hz]
  split_ifs <;>
    first
      | rfl
      | omega
      | (exfalso; omega)
      | (simp only [Nat.zero_mod, Nat.zero_testBit])
      | (congr 1 <;> omega)

/-- The SE frame child of a grown leaf reads the old SE quadrant. -/
theorem leafLive_se_child (rc : Cell) (x y : Int) (hx : 0 ≤ x) (hy : y < 0) :
    leafLive ⟨rc.se ||| LEAF_MASK, 0, 0, 0⟩ (x - 4) (y + 4) = leafLive rc x y := by
  have hse : ((rc.se ||| LEAF_MASK) &&& NOT_LEAF_MASK) % 65536 = rc.se % 65536 := by
    rw [Nat.and_distrib_right]
    rw [show LEAF_MASK &&& NOT_LEAF_MASK = 0 from by decide, Nat.or_zero]
    rw [show NOT_LEAF_MASK = 2 ^ 63 - 1 from rfl, Nat.and_pow_two_sub_one_eq_mod]
    exact Nat.mod_mod_of_dvd _ ⟨2 ^ 47, by norm_num⟩
  simp only [leafLive, hse]
  split_ifs <;>
    first
      | rfl
      | omega
      | (exfalso; omega)
      | (simp only [Nat.zero_mod, Nat.zero_testBit])
      | (congr 1 <;> omega)

theorem frame_getD (a b c d e : Cell) :
    ([a, b, c, d] ++ [e]).getD 0 Cell.void = a ∧
    ([a, b, c, d] ++ [e]).getD 1 Cell.void = b ∧
    ([a, b, c, d] ++ [e]).getD 2 Cell.void = c ∧
    ([a, b, c, d] ++ [e]).getD 3 Cell.void = d :=
  ⟨rfl, rfl, rfl, rfl⟩

/-- Growing the void root wraps it in a frame of void children: the walk still
reads nothing. -/
theorem grow_live_void (d : Nat) (buf0 : List Cell) (hlen : buf0.length < 2 ^ 63)
    (x y : Int) :
    liveB ((Cell.void.grow buf0).2 ++ [(Cell.void.grow buf0).1]) (d + 1)
      (Cell.void.grow buf0).1 x y = liveB buf0 d Cell.void x y := by
  have hgrow : Cell.void.grow buf0 =
      (⟨buf0.length, buf0.length + 1, buf0.length + 2, buf0.length + 3⟩,
        buf0 ++ [Cell.void, Cell.void, Cell.void, Cell.void]) := rfl
  rw [hgrow, liveB_void]
  dsimp only
  rw [List.append_assoc]
  rw [liveB_succ]
  rw [if_neg (by simp [root_not_void]), if_neg (by simp [is_leaf_of_lt hlen])]
  by_cases hx : x < 0
  · rw [if_pos hx]
    by_cases hy : y < 0
    · rw [if_pos hy, getD_append_add buf0 _ 2, (frame_getD _ _ _ _ _).2.2.1,
        liveB_void]
    · rw [if_neg hy, getD_append_self buf0 _, (frame_getD _ _ _ _ _).1, liveB_void]
  · rw [if_neg hx]
    by_cases hy : y < 0
    · rw [if_pos hy, getD_append_add buf0 _ 3, (frame_getD _ _ _ _ _).2.2.2,
        liveB_void]
    · rw [if_neg hy, getD_append_add buf0 _ 1, (frame_getD _ _ _ _ _).2.1, liveB_void]

/-- One growth step is the identity on the root-centered live-cell decode. -/
theorem grow_live_core (d : Nat) (buf0 : List Cell) (rc : Cell)
    (hc : consB buf0 buf0.length d rc = true)
    (h0 : buf0.getD 0 Cell.void = Cell.void)
    (hlen : buf0.length < 2 ^ 63) (x y : Int) :
    liveB ((rc.grow buf0).2 ++ [(rc.grow buf0).1]) (d + 1) (rc.grow buf0).1 x y
      = liveB buf0 d rc x y := by
  by_cases hv : rc.is_void = true
  · rw [is_void_eq hv]
    exact grow_live_void d buf0 hlen x y
  · cases d with
    | zero =>
      by_cases hl : rc.is_leaf = true
      · -- the root is a leaf: the four frame children are tagged leaves
        have hgrow : rc.grow buf0 =
            (⟨buf0.length, buf0.length + 1, buf0.length + 2, buf0.length + 3⟩,
              buf0 ++ [⟨LEAF_MASK, 0, 0, rc.nw &&& NOT_LEAF_MASK⟩,
                ⟨LEAF_MASK, 0, rc.ne, 0⟩, ⟨LEAF_MASK, rc.sw, 0, 0⟩,
                ⟨rc.se ||| LEAF_MASK, 0, 0, 0⟩]) := by
          simp only [Cell.grow]
          rw [if_pos hl]
          rw [show usizeNot LEAF_MASK = NOT_LEAF_MASK from by decide]
        rw [hgrow]
        dsimp only
        conv_rhs => rw [liveB_zero, if_pos hl]
        rw [List.append_assoc]
        rw [liveB_succ]
        rw [if_neg (by simp [root_not_void]), if_neg (by simp [is_leaf_of_lt hlen])]
        rw [show (2 : Int) ^ (0 + 2) = 4 from by norm_num]
        by_cases hx : x < 0
        · rw [if_pos hx]
          by_cases hy : y < 0
          · rw [if_pos hy, getD_append_add buf0 _ 2, (frame_getD _ _ _ _ _).2.2.1]
            rw [liveB_zero, if_pos (leaf_mask_is_leaf _ _ _)]
            exact leafLive_sw_child rc x y hx hy
          · rw [if_neg hy, getD_append_self buf0 _, (frame_getD _ _ _ _ _).1]
            rw [liveB_zero, if_pos (leaf_mask_is_leaf _ _ _)]
            exact leafLive_nw_child rc x y hx (not_lt.mp hy)
        · rw [if_neg hx]
          by_cases hy : y < 0
          · rw [if_pos hy, getD_append_add buf0 _ 3, (frame_getD _ _ _ _ _).2.2.2]
            rw [liveB_zero, if_pos (or_mask_is_leaf _ _ _ _)]
            exact leafLive_se_child rc x y (not_lt.mp hx) hy
          · rw [if_neg hy, getD_append_add buf0 _ 1, (frame_getD _ _ _ _ _).2.1]
            rw [liveB_zero, if_pos (leaf_mask_is_leaf _ _ _)]
            exact leafLive_ne_child rc x y (not_lt.mp hx) (not_lt.mp hy)
      · -- interior at fuel 0 contradicts consistency
        rw [consB_zero, if_neg hv, if_neg hl] at hc
        exact absurd hc (by decide)
    | succ e =>
      by_cases hl : rc.is_leaf = true
      · -- a leaf above fuel 0 contradicts consistency
        rw [consB_succ, if_neg hv, if_pos hl] at hc
        exact absurd hc (by decide)
      · -- the root is interior: each frame child is empty except one quadrant
        rw [consB_succ, if_neg hv, if_neg hl] at hc
        simp only [Bool.and_eq_true, decide_eq_true_eq] at hc
        obtain ⟨⟨⟨⟨⟨⟨⟨h1, h2⟩, h3⟩, h4⟩, k1⟩, k2⟩, k3⟩, k4⟩ := hc
        have hb0 : 0 < buf0.length := by omega
        have hnw64 : rc.nw &&& usizeNot 0 = rc.nw := by
          rw [show usizeNot 0 = 2 ^ 64 - 1 from rfl, Nat.and_pow_two_sub_one_eq_mod]
          exact Nat.mod_eq_of_lt (by omega)
        have hgrow : rc.grow buf0 =
            (⟨buf0.length, buf0.length + 1, buf0.length + 2, buf0.length + 3⟩,
              buf0 ++ [⟨0, 0, 0, rc.nw⟩, ⟨0, 0, rc.ne, 0⟩, ⟨0, rc.sw, 0, 0⟩,
                ⟨rc.se, 0, 0, 0⟩]) := by
          simp only [Cell.grow]
          rw [if_neg hl]
          rw [hnw64, Nat.or_zero]
        rw [hgrow]
        dsimp only
        have hp : (2 : Int) ^ (e + 1 + 2) = 2 * 2 ^ (e + 2) := by ring
        have hpos : (0 : Int) < 2 ^ (e + 2) := by positivity
        rw [List.append_assoc]
        rw [liveB_succ]
        rw [if_neg (by simp [root_not_void]), if_neg (by simp [is_leaf_of_lt hlen])]
        by_cases hx : x < 0
        · rw [if_pos hx]
          by_cases hy : y < 0
          · -- SW frame child ⟨0, rc.sw, 0, 0⟩: content in its NE quadrant
            rw [if_pos hy, getD_append_add buf0 _ 2, (frame_getD _ _ _ _ _).2.2.1]
            have hrhs : liveB buf0 (e + 1) rc x y
                = liveB buf0 e (buf0.getD rc.sw Cell.void)
                    (x + 2 ^ (e + 2)) (y + 2 ^ (e + 2)) := by
              rw [liveB_succ, if_neg hv, if_neg hl, if_pos hx, if_pos hy]
            rw [hrhs]
            by_cases hz : rc.sw = 0
            · rw [hz, h0]
              rw [show (⟨0, 0, 0, 0⟩ : Cell) = Cell.void from rfl]
              rw [liveB_void, liveB_void]
            · have hcv : Cell.is_void ⟨0, rc.sw, 0, 0⟩ = false := by
                simp [Cell.is_void, hz]
              rw [liveB_succ, if_neg (by simp [hcv]),
                if_neg (by simp [zero_nw_not_leaf])]
              by_cases hX : x + 2 ^ (e + 1 + 2) < 0
              · rw [if_pos hX,
                  liveB_oob e buf0 (buf0.getD rc.sw Cell.void)
                    (x + 2 ^ (e + 2)) (y + 2 ^ (e + 2)) (by omega)]
                by_cases hY : y + 2 ^ (e + 1 + 2) < 0
                · rw [if_pos hY, List.getD_append _ _ _ _ hb0, h0, liveB_void]
                · rw [if_neg hY, List.getD_append _ _ _ _ hb0, h0, liveB_void]
              · rw [if_neg hX]
                by_cases hY : y + 2 ^ (e + 1 + 2) < 0
                · rw [if_pos hY,
                    liveB_oob e buf0 (buf0.getD rc.sw Cell.void)
                      (x + 2 ^ (e + 2)) (y + 2 ^ (e + 2)) (by omega)]
                  rw [List.getD_append _ _ _ _ hb0, h0, liveB_void]
                · rw [if_neg hY, List.getD_append _ _ _ _ h3]
                  rw [liveB_append e buf0 _ buf0.length _ k3 (le_refl _)]
                  rw [show x + 2 ^ (e + 1 + 2) - 2 ^ (e + 2) = x + 2 ^ (e + 2)
                      from by omega,
                    show y + 2 ^ (e + 1 + 2) - 2 ^ (e + 2) = y + 2 ^ (e + 2)
                      from by omega]
          · -- NW frame child ⟨0, 0, 0, rc.nw⟩: content in its SE quadrant
            rw [if_neg hy, getD_append_self buf0 _, (frame_getD _ _ _ _ _).1]
            have hrhs : liveB buf0 (e + 1) rc x y
                = liveB buf0 e (buf0.getD rc.nw Cell.void)
                    (x + 2 ^ (e + 2)) (y - 2 ^ (e + 2)) := by
              rw [liveB_succ, if_neg hv, if_neg hl, if_pos hx, if_neg hy]
            rw [hrhs]
            by_cases hz : rc.nw = 0
            · rw [hz, h0]
              rw [show (⟨0, 0, 0, 0⟩ : Cell) = Cell.void from rfl]
              rw [liveB_void, liveB_void]
            · have hcv : Cell.is_void ⟨0, 0, 0, rc.nw⟩ = false := by
                simp [Cell.is_void, hz]
              rw [liveB_succ, if_neg (by simp [hcv]),
                if_neg (by simp [zero_nw_not_leaf])]
              by_cases hX : x + 2 ^ (e + 1 + 2) < 0
              · rw [if_pos hX,
                  liveB_oob e buf0 (buf0.getD rc.nw Cell.void)
                    (x + 2 ^ (e + 2)) (y - 2 ^ (e + 2)) (by omega)]
                by_cases hY : y - 2 ^ (e + 1 + 2) < 0
                · rw [if_pos hY, List.getD_append _ _ _ _ hb0, h0, liveB_void]
                · rw [if_neg hY, List.getD_append _ _ _ _ hb0, h0, liveB_void]
              · rw [if_neg hX]
                by_cases hY : y - 2 ^ (e + 1 + 2) < 0
                · rw [if_pos hY, List.getD_append _ _ _ _ h1]
                  rw [liveB_append e buf0 _ buf0.length _ k1 (le_refl _)]
                  rw [show x + 2 ^ (e + 1 + 2) - 2 ^ (e + 2) = x + 2 ^ (e + 2)
                      from by omega,
                    show y - 2 ^ (e + 1 + 2) + 2 ^ (e + 2) = y - 2 ^ (e + 2)
                      from by omega]
                · rw [if_neg hY,
                    liveB_oob e buf0 (buf0.getD rc.nw Cell.void)
                      (x + 2 ^ (e + 2)) (y - 2 ^ (e + 2)) (by omega)]
                  rw [List.getD_append _ _ _ _ hb0, h0, liveB_void]
        · rw [if_neg hx]
          by_cases hy : y < 0
          · -- SE frame child ⟨rc.se, 0, 0, 0⟩: content in its NW quadrant
            rw [if_pos hy, getD_append_add buf0 _ 3, (frame_getD _ _ _ _ _).2.2.2]
            have hrhs : liveB buf0 (e + 1) rc x y
                = liveB buf0 e (buf0.getD rc.se Cell.void)
                    (x - 2 ^ (e + 2)) (y + 2 ^ (e + 2)) := by
              rw [liveB_succ, if_neg hv, if_neg hl, if_neg hx, if_pos hy]
            rw [hrhs]
            by_cases hz : rc.se = 0
            · rw [hz, h0]
              rw [show (⟨0, 0, 0, 0⟩ : Cell) = Cell.void from rfl]
              rw [liveB_void, liveB_void]
            · have hcv : Cell.is_void ⟨rc.se, 0, 0, 0⟩ = false := by
                simp [Cell.is_void, hz]
              rw [liveB_succ, if_neg (by simp [hcv]),
                if_neg (by simp [is_leaf_of_lt (lt_trans h4 hlen)])]
              by_cases hX : x - 2 ^ (e + 1 + 2) < 0
              · rw [if_pos hX]
                by_cases hY : y + 2 ^ (e + 1 + 2) < 0
                · rw [if_pos hY,
                    liveB_oob e buf0 (buf0.getD rc.se Cell.void)
                      (x - 2 ^ (e + 2)) (y + 2 ^ (e + 2)) (by omega)]
                  rw [List.getD_append _ _ _ _ hb0, h0, liveB_void]
                · rw [if_neg hY, List.getD_append _ _ _ _ h4]
                  rw [liveB_append e buf0 _ buf0.length _ k4 (le_refl _)]
                  rw [show x - 2 ^ (e + 1 + 2) + 2 ^ (e + 2) = x - 2 ^ (e + 2)
                      from by omega,
                    show y + 2 ^ (e + 1 + 2) - 2 ^ (e + 2) = y + 2 ^ (e + 2)
                      from by omega]
              · rw [if_neg hX,
                  liveB_oob e buf0 (buf0.getD rc.se Cell.void)
                    (x - 2 ^ (e + 2)) (y + 2 ^ (e + 2)) (by omega)]
                by_cases hY : y + 2 ^ (e + 1 + 2) < 0
                · rw [if_pos hY, List.getD_append _ _ _ _ hb0, h0, liveB_void]
                · rw [if_neg hY, List.getD_append _ _ _ _ hb0, h0, liveB_void]
          · -- NE frame child ⟨0, 0, rc.ne, 0⟩: content in its SW quadrant
            rw [if_neg hy, getD_append_add buf0 _ 1, (frame_getD _ _ _ _ _).2.1]
            have hrhs : liveB buf0 (e + 1) rc x y
                = liveB buf0 e (buf0.getD rc.ne Cell.void)
                    (x - 2 ^ (e + 2)) (y - 2 ^ (e + 2)) := by
              rw [liveB_succ, if_neg hv, if_neg hl, if_neg hx, if_neg hy]
            rw [hrhs]
            by_cases hz : rc.ne = 0
            · rw [hz, h0]
              rw [show (⟨0, 0, 0, 0⟩ : Cell) = Cell.void from rfl]
              rw [liveB_void, liveB_void]
            · have hcv : Cell.is_void ⟨0, 0, rc.ne, 0⟩ = false := by
                simp [Cell.is_void, hz]
              rw [liveB_succ, if_neg (by simp [hcv]),
                if_neg (by simp [zero_nw_not_leaf])]
              by_cases hX : x - 2 ^ (e + 1 + 2) < 0
              · rw [if_pos hX]
                by_cases hY : y - 2 ^ (e + 1 + 2) < 0
                · rw [if_pos hY, List.getD_append _ _ _ _ h2]
                  rw [liveB_append e buf0 _ buf0.length _ k2 (le_refl _)]
                  rw [show x - 2 ^ (e + 1 + 2) + 2 ^ (e + 2) = x - 2 ^ (e + 2)
                      from by omega,
                    show y - 2 ^ (e + 1 + 2) + 2 ^ (e + 2) = y - 2 ^ (e + 2)
                      from by omega]
                · rw [if_neg hY,
                    liveB_oob e buf0 (buf0.getD rc.ne Cell.void)
                      (x - 2 ^ (e + 2)) (y - 2 ^ (e + 2)) (by omega)]
                  rw [List.getD_append _ _ _ _ hb0, h0, liveB_void]
              · rw [if_neg hX,
                  liveB_oob e buf0 (buf0.getD rc.ne Cell.void)
                    (x - 2 ^ (e + 2)) (y - 2 ^ (e + 2)) (by omega)]
                by_cases hY : y - 2 ^ (e + 1 + 2) < 0
                · rw [if_pos hY, List.getD_append _ _ _ _ hb0, h0, liveB_void]
                · rw [if_neg hY, List.getD_append _ _ _ _ hb0, h0, liveB_void]

theorem singleton_getD (c : Cell) : [c].getD 0 Cell.void = c := rfl

theorem worldLive_eq (w : World) (x y : Int) :
    worldLive w x y = liveB w.buf w.depth (rootCellOf w) x y := rfl

theorem rootCellOf_eq (w : World) :
    rootCellOf w = w.buf.getD w.root Cell.void := rfl

theorem consB_zero_of_leaf (buf : List Cell) (n : Nat) (c : Cell)
    (hl : c.is_leaf = true) : consB buf n 0 c = true := by
  rw [consB_zero]
  by_cases hv : c.is_void = true
  · rw [if_pos hv]
  · rw [if_neg hv, if_pos hl]

/-- One growth step keeps the subtree depth-consistent under the new root. -/
theorem grow_cons_core (d : Nat) (buf0 : List Cell) (rc : Cell)
    (hc : consB buf0 buf0.length d rc = true)
    (h0 : buf0.getD 0 Cell.void = Cell.void)
    (hlen : buf0.length < 2 ^ 63) :
    consB ((rc.grow buf0).2 ++ [(rc.grow buf0).1]) (buf0.length + 4) (d + 1)
      (rc.grow buf0).1 = true := by
  by_cases hv : rc.is_void = true
  · rw [is_void_eq hv]
    have hgrow : Cell.void.grow buf0 =
        (⟨buf0.length, buf0.length + 1, buf0.length + 2, buf0.length + 3⟩,
          buf0 ++ [Cell.void, Cell.void, Cell.void, Cell.void]) := rfl
    rw [hgrow]
    dsimp only
    rw [List.append_assoc, consB_succ]
    rw [if_neg (by simp [root_not_void]), if_neg (by simp [is_leaf_of_lt hlen])]
    simp only [Bool.and_eq_true, decide_eq_true_eq]
    refine ⟨⟨⟨⟨⟨⟨⟨by omega, by omega⟩, by omega⟩, by omega⟩, ?_⟩, ?_⟩, ?_⟩, ?_⟩
    · rw [getD_append_self buf0 _, (frame_getD _ _ _ _ _).1]; exact consB_void _ _ _
    · rw [getD_append_add buf0 _ 1, (frame_getD _ _ _ _ _).2.1]; exact consB_void _ _ _
    · rw [getD_append_add buf0 _ 2, (frame_getD _ _ _ _ _).2.2.1]; exact consB_void _ _ _
    · rw [getD_append_add buf0 _ 3, (frame_getD _ _ _ _ _).2.2.2]; exact consB_void _ _ _
  · cases d with
    | zero =>
      by_cases hl : rc.is_leaf = true
      · have hgrow : rc.grow buf0 =
            (⟨buf0.length, buf0.length + 1, buf0.length + 2, buf0.length + 3⟩,
              buf0 ++ [⟨LEAF_MASK, 0, 0, rc.nw &&& NOT_LEAF_MASK⟩,
                ⟨LEAF_MASK, 0, rc.ne, 0⟩, ⟨LEAF_MASK, rc.sw, 0, 0⟩,
                ⟨rc.se ||| LEAF_MASK, 0, 0, 0⟩]) := by
          simp only [Cell.grow]
          rw [if_pos hl]
          rw [show usizeNot LEAF_MASK = NOT_LEAF_MASK from by decide]
        rw [hgrow]
        dsimp only
        rw [List.append_assoc, consB_succ]
        rw [if_neg (by simp [root_not_void]), if_neg (by simp [is_leaf_of_lt hlen])]
        simp only [Bool.and_eq_true, decide_eq_true_eq]
        refine ⟨⟨⟨⟨⟨⟨⟨by omega, by omega⟩, by omega⟩, by omega⟩, ?_⟩, ?_⟩, ?_⟩, ?_⟩
        · rw [getD_append_self buf0 _, (frame_getD _ _ _ _ _).1]
          exact consB_zero_of_leaf _ _ _ (leaf_mask_is_leaf _ _ _)
        · rw [getD_append_add buf0 _ 1, (frame_getD _ _ _ _ _).2.1]
          exact consB_zero_of_leaf _ _ _ (leaf_mask_is_leaf _ _ _)
        · rw [getD_append_add buf0 _ 2, (frame_getD _ _ _ _ _).2.2.1]
          exact consB_zero_of_leaf _ _ _ (leaf_mask_is_leaf _ _ _)
        · rw [getD_append_add buf0 _ 3, (frame_getD _ _ _ _ _).2.2.2]
          exact consB_zero_of_leaf _ _ _ (or_mask_is_leaf _ _ _ _)
      · rw [consB_zero, if_neg hv, if_neg hl] at hc
        exact absurd hc (by decide)
    | succ e =>
      by_cases hl : rc.is_leaf = true
      · rw [consB_succ, if_neg hv, if_pos hl] at hc
        exact absurd hc (by decide)
      · rw [consB_succ, if_neg hv, if_neg hl] at hc
        simp only [Bool.and_eq_true, decide_eq_true_eq] at hc
        obtain ⟨⟨⟨⟨⟨⟨⟨h1, h2⟩, h3⟩, h4⟩, k1⟩, k2⟩, k3⟩, k4⟩ := hc
        have hb0 : 0 < buf0.length := by omega
        have hnw64 : rc.nw &&& usizeNot 0 = rc.nw := by
          rw [show usizeNot 0 = 2 ^ 64 - 1 from rfl, Nat.and_pow_two_sub_one_eq_mod]
          exact Nat.mod_eq_of_lt (by omega)
        have hgrow : rc.grow buf0 =
            (⟨buf0.length, buf0.length + 1, buf0.length + 2, buf0.length + 3⟩,
              buf0 ++ [⟨0, 0, 0, rc.nw⟩, ⟨0, 0, rc.ne, 0⟩, ⟨0, rc.sw, 0, 0⟩,
                ⟨rc.se, 0, 0, 0⟩]) := by
          simp only [Cell.grow]
          rw [if_neg hl]
          rw [hnw64, Nat.or_zero]
        rw [hgrow]
        dsimp only
        rw [List.append_assoc, consB_succ]
        rw [if_neg (by simp [root_not_void]), if_neg (by simp [is_leaf_of_lt hlen])]
        simp only [Bool.and_eq_true, decide_eq_true_eq]
        have hvoidcons : ∀ f : Nat,
            consB (buf0 ++ ([(⟨0, 0, 0, rc.nw⟩ : Cell), (⟨0, 0, rc.ne, 0⟩ : Cell),
              (⟨0, rc.sw, 0, 0⟩ : Cell), (⟨rc.se, 0, 0, 0⟩ : Cell)] ++
                [(⟨buf0.length, buf0.length + 1, buf0.length + 2,
                  buf0.length + 3⟩ : Cell)])) (buf0.length + 4) f
              ((buf0 ++ ([(⟨0, 0, 0, rc.nw⟩ : Cell), (⟨0, 0, rc.ne, 0⟩ : Cell),
                (⟨0, rc.sw, 0, 0⟩ : Cell), (⟨rc.se, 0, 0, 0⟩ : Cell)] ++
                  [(⟨buf0.length, buf0.length + 1, buf0.length + 2,
                    buf0.length + 3⟩ : Cell)])).getD 0 Cell.void) = true := by
          intro f
          rw [List.getD_append _ _ _ _ hb0, h0]
          exact consB_void _ _ _
        have htrans : ∀ (j : Nat), j < buf0.length →
            consB buf0 buf0.length e (buf0.getD j Cell.void) = true →
            consB (buf0 ++ ([(⟨0, 0, 0, rc.nw⟩ : Cell), (⟨0, 0, rc.ne, 0⟩ : Cell),
              (⟨0, rc.sw, 0, 0⟩ : Cell), (⟨rc.se, 0, 0, 0⟩ : Cell)] ++
                [(⟨buf0.length, buf0.length + 1, buf0.length + 2,
                  buf0.length + 3⟩ : Cell)])) (buf0.length + 4) e
              ((buf0 ++ ([(⟨0, 0, 0, rc.nw⟩ : Cell), (⟨0, 0, rc.ne, 0⟩ : Cell),
                (⟨0, rc.sw, 0, 0⟩ : Cell), (⟨rc.se, 0, 0, 0⟩ : Cell)] ++
                  [(⟨buf0.length, buf0.length + 1, buf0.length + 2,
                    buf0.length + 3⟩ : Cell)])).getD j Cell.void) = true := by
          intro j hj hcons
          rw [List.getD_append _ _ _ _ hj]
          refine consB_mono e _ buf0.length (buf0.length + 4) _ (by omega) ?_
          rw [consB_append e buf0 _ buf0.length _ (le_refl _)]
          exact hcons
        refine ⟨⟨⟨⟨⟨⟨⟨by omega, by omega⟩, by omega⟩, by omega⟩, ?_⟩, ?_⟩, ?_⟩, ?_⟩
        · -- NW frame child ⟨0, 0, 0, rc.nw⟩
          rw [getD_append_self buf0 _, (frame_getD _ _ _ _ _).1]
          by_cases hz : rc.nw = 0
          · rw [hz, show (⟨0, 0, 0, 0⟩ : Cell) = Cell.void from rfl]
            exact consB_void _ _ _
          · rw [consB_succ,
              if_neg (by simp [show Cell.is_void ⟨0, 0, 0, rc.nw⟩ = false from by
                simp [Cell.is_void, hz]]),
              if_neg (by simp [zero_nw_not_leaf])]
            simp only [Bool.and_eq_true, decide_eq_true_eq]
            exact ⟨⟨⟨⟨⟨⟨⟨by omega, by omega⟩, by omega⟩, by omega⟩, hvoidcons e⟩,
              hvoidcons e⟩, hvoidcons e⟩, htrans rc.nw h1 k1⟩
        · -- NE frame child ⟨0, 0, rc.ne, 0⟩
          rw [getD_append_add buf0 _ 1, (frame_getD _ _ _ _ _).2.1]
          by_cases hz : rc.ne = 0
          · rw [hz, show (⟨0, 0, 0, 0⟩ : Cell) = Cell.void from rfl]
            exact consB_void _ _ _
          · rw [consB_succ,
              if_neg (by simp [show Cell.is_void ⟨0, 0, rc.ne, 0⟩ = false from by
                simp [Cell.is_void, hz]]),
              if_neg (by simp [zero_nw_not_leaf])]
            simp only [Bool.and_eq_true, decide_eq_true_eq]
            exact ⟨⟨⟨⟨⟨⟨⟨by omega, by omega⟩, by omega⟩, by omega⟩, hvoidcons e⟩,
              hvoidcons e⟩, htrans rc.ne h2 k2⟩, hvoidcons e⟩
        · -- SW frame child ⟨0, rc.sw, 0, 0⟩
          rw [getD_append_add buf0 _ 2, (frame_getD _ _ _ _ _).2.2.1]
          by_cases hz : rc.sw = 0
          · rw [hz, show (⟨0, 0, 0, 0⟩ : Cell) = Cell.void from rfl]
            exact consB_void _ _ _
          · rw [consB_succ,
              if_neg (by simp [show Cell.is_void ⟨0, rc.sw, 0, 0⟩ = false from by
                simp [Cell.is_void, hz]]),
              if_neg (by simp [zero_nw_not_leaf])]
            simp only [Bool.and_eq_true, decide_eq_true_eq]
            exact ⟨⟨⟨⟨⟨⟨⟨by omega, by omega⟩, by omega⟩, by omega⟩, hvoidcons e⟩,
              htrans rc.sw h3 k3⟩, hvoidcons e⟩, hvoidcons e⟩
        · -- SE frame child ⟨rc.se, 0, 0, 0⟩
          rw [getD_append_add buf0 _ 3, (frame_getD _ _ _ _ _).2.2.2]
          by_cases hz : rc.se = 0
          · rw [hz, show (⟨0, 0, 0, 0⟩ : Cell) = Cell.void from rfl]
            exact consB_void _ _ _
          · rw [consB_succ,
              if_neg (by simp [show Cell.is_void ⟨rc.se, 0, 0, 0⟩ = false from by
                simp [Cell.is_void, hz]]),
              if_neg (by simp [is_leaf_of_lt (lt_trans h4 hlen)])]
            simp only [Bool.and_eq_true, decide_eq_true_eq]
            exact ⟨⟨⟨⟨⟨⟨⟨by omega, by omega⟩, by omega⟩, by omega⟩,
              htrans rc.se h4 k4⟩, hvoidcons e⟩, hvoidcons e⟩, hvoidcons e⟩

/-- Decompose a buffer with a known last element. -/
theorem last_decomp (w : World) (rc : Cell) (hlast : w.buf.getLast? = some rc) :
    w.buf.dropLast ++ [rc] = w.buf := by
  have hne : w.buf ≠ [] := by intro h; rw [h] at hlast; simp at hlast
  have hgl := List.getLast?_eq_getLast w.buf hne
  rw [hlast] at hgl
  rw [Option.some.inj hgl]
  exact List.dropLast_append_getLast hne

/-- One loop iteration of `World::grow` preserves the live-cell decode. -/
theorem growStep_worldLive (w : World) (rc : Cell)
    (hlast : w.buf.getLast? = some rc) (hinv : WorldInv w)
    (hlen : w.buf.length - 1 < 2 ^ 63) (x y : Int) :
    worldLive (growStep rc w) x y = worldLive w x y := by
  obtain ⟨hroot, h00, hcons⟩ := hinv
  obtain ⟨buf0, hsplit⟩ : ∃ buf0, buf0 ++ [rc] = w.buf :=
    ⟨w.buf.dropLast, last_decomp w rc hlast⟩
  have hdrop : w.buf.dropLast = buf0 := by rw [← hsplit, List.dropLast_concat]
  have hlen1 : w.buf.length = buf0.length + 1 := by rw [← hsplit]; simp
  have hlen' : buf0.length < 2 ^ 63 := by omega
  have hr : w.root = buf0.length := by omega
  have hrc : rootCellOf w = rc := by
    rw [rootCellOf_eq, hr, ← hsplit, getD_append_self, singleton_getD]
  have hcc : consB buf0 buf0.length w.depth rc = true := by
    rw [hrc, ← hsplit] at hcons
    have hb : (buf0 ++ [rc]).length - 1 = buf0.length := by simp
    rw [hb, consB_append _ _ _ _ _ (le_refl _)] at hcons
    exact hcons
  have h00' : buf0.getD 0 Cell.void = Cell.void := by
    by_cases hb0 : buf0 = []
    · rw [hb0]; rfl
    · rw [← hsplit, List.getD_append _ _ _ 0 (List.length_pos.mpr hb0)] at h00
      exact h00
  have hgs : growStep rc w = World.mk w.rules ((rc.grow buf0).2).length
      ((rc.grow buf0).2 ++ [(rc.grow buf0).1]) (w.depth + 1) := by
    simp only [growStep, hdrop]
  rw [worldLive_eq, worldLive_eq, hrc, hgs, rootCellOf_eq]
  dsimp only
  rw [getD_append_self, singleton_getD]
  rw [← hsplit]
  rw [liveB_append w.depth buf0 [rc] buf0.length rc hcc (le_refl _)]
  exact grow_live_core w.depth buf0 rc hcc h00' hlen' x y

/-- One loop iteration of `World::grow` preserves the world invariant. -/
theorem growStep_inv (w : World) (rc : Cell)
    (hlast : w.buf.getLast? = some rc) (hinv : WorldInv w)
    (hlen : w.buf.length - 1 < 2 ^ 63) :
    WorldInv (growStep rc w) := by
  obtain ⟨hroot, h00, hcons⟩ := hinv
  obtain ⟨buf0, hsplit⟩ : ∃ buf0, buf0 ++ [rc] = w.buf :=
    ⟨w.buf.dropLast, last_decomp w rc hlast⟩
  have hdrop : w.buf.dropLast = buf0 := by rw [← hsplit, List.dropLast_concat]
  have hlen1 : w.buf.length = buf0.length + 1 := by rw [← hsplit]; simp
  have hlen' : buf0.length < 2 ^ 63 := by omega
  have hr : w.root = buf0.length := by omega
  have hrc : rootCellOf w = rc := by
    rw [rootCellOf_eq, hr, ← hsplit, getD_append_self, singleton_getD]
  have hcc : consB buf0 buf0.length w.depth rc = true := by
    rw [hrc, ← hsplit] at hcons
    have hb : (buf0 ++ [rc]).length - 1 = buf0.length := by simp
    rw [hb, consB_append _ _ _ _ _ (le_refl _)] at hcons
    exact hcons
  have h00' : buf0.getD 0 Cell.void = Cell.void := by
    by_cases hb0 : buf0 = []
    · rw [hb0]; rfl
    · rw [← hsplit, List.getD_append _ _ _ 0 (List.length_pos.mpr hb0)] at h00
      exact h00
  have hgs : growStep rc w = World.mk w.rules ((rc.grow buf0).2).length
      ((rc.grow buf0).2 ++ [(rc.grow buf0).1]) (w.depth + 1) := by
    simp only [growStep, hdrop]
  have hglen : ((rc.grow buf0).2).length = buf0.length + 4 := by
    simp [Cell.grow]
  rw [hgs]
  refine ⟨?_, ?_, ?_⟩
  · dsimp only
    rw [List.length_append, List.length_cons, List.length_nil]
  · dsimp only
    by_cases hb0 : buf0 = []
    · have hrcv : rc = Cell.void := by
        rw [hb0] at hsplit
        rw [← hsplit, List.nil_append, singleton_getD] at h00
        exact h00
      rw [hrcv, hb0]
      rfl
    · have hgrow2 : (rc.grow buf0).2 = buf0 ++ [⟨if rc.is_leaf then LEAF_MASK else 0, 0,
          0, rc.nw &&& usizeNot (if rc.is_leaf then LEAF_MASK else 0)⟩,
          ⟨if rc.is_leaf then LEAF_MASK else 0, 0, rc.ne, 0⟩,
          ⟨if rc.is_leaf then LEAF_MASK else 0, rc.sw, 0, 0⟩,
          ⟨rc.se ||| (if rc.is_leaf then LEAF_MASK else 0), 0, 0, 0⟩] := rfl
      rw [hgrow2, List.append_assoc,
        List.getD_append _ _ _ 0 (List.length_pos.mpr hb0)]
      exact h00'
  · dsimp only
    rw [rootCellOf_eq]
    dsimp only
    rw [getD_append_self, singleton_getD]
    have hb : ((rc.grow buf0).2 ++ [(rc.grow buf0).1]).length - 1
        = buf0.length + 4 := by
      rw [List.length_append, List.length_cons, List.length_nil, hglen]
      omega
    rw [hb]
    exact grow_cons_core w.depth buf0 rc hcc h00' hlen'

/-- One loop iteration of `World::grow` adds exactly four cells. -/
theorem growStep_buf_len (w : World) (rc : Cell)
    (hlast : w.buf.getLast? = some rc) :
    (growStep rc w).buf.length = w.buf.length + 4 := by
  have hne : w.buf ≠ [] := by intro h; rw [h] at hlast; simp at hlast
  have hpos : 0 < w.buf.length := List.length_pos.mpr hne
  simp only [growStep, Cell.grow]
  simp only [List.length_append, List.length_cons, List.length_nil,
    List.length_dropLast]
  omega

/-- Claim C7: on every well-formed world whose arena stays below the leaf-tag
bound, `World::grow k` increases the depth by `k` and is the identity on the
root-centered live-cell decode: every coordinate reads the same after growing. -/
theorem c7_grow_identity_on_content : ∀ (k : Nat) (w w' : World),
    WorldInv w → w.buf.length + 4 * k ≤ 2 ^ 63 →
    World.grow k w = some w' →
    w'.depth = w.depth + k ∧ ∀ x y : Int, worldLive w' x y = worldLive w x y := by
  intro k
  induction k with
  | zero =>
    intro w w' _ _ hg
    simp only [World.grow] at hg
    cases hg
    exact ⟨rfl, fun x y => rfl⟩
  | succ k ih =>
    intro w w' hinv hb hg
    rw [grow_succ_eq] at hg
    cases hlast : w.buf.getLast? with
    | none => rw [hlast] at hg; simp at hg
    | some rc =>
      rw [hlast] at hg
      simp only [Option.bind_eq_bind, Option.some_bind] at hg
      by_cases hd : w.depth = 255
      · rw [if_pos hd] at hg; simp at hg
      · rw [if_neg hd] at hg
        have hlen : w.buf.length - 1 < 2 ^ 63 := by omega
        have hinv' := growStep_inv w rc hlast hinv hlen
        have hlen4 := growStep_buf_len w rc hlast
        have hb' : (growStep rc w).buf.length + 4 * k ≤ 2 ^ 63 := by
          rw [hlen4]; omega
        obtain ⟨hdep, hlive⟩ := ih (growStep rc w) w' hinv' hb' hg
        have hsd : (growStep rc w).depth = w.depth + 1 := rfl
        constructor
        · rw [hdep, hsd]; omega
        · intro x y
          rw [hlive x y, growStep_worldLive w rc hlast hinv hlen x y]

/-- Witness for C7: one growth step of the fresh depth-0 world. -/
theorem c7_grow_identity_on_content_witness :
    WorldInv w7 ∧ w7.buf.length + 4 * 1 ≤ 2 ^ 63 ∧ World.grow 1 w7 = some w7g ∧
      w7g.depth = w7.depth + 1 ∧ worldLive w7g 3 (-2) = worldLive w7 3 (-2) := by
  have h1 : WorldInv w7 := ⟨rfl, rfl, rfl⟩
  have h2 : w7.buf.length + 4 * 1 ≤ 2 ^ 63 := by decide
  have h3 : World.grow 1 w7 = some w7g := rfl
  exact ⟨h1, h2, h3, (c7_grow_identity_on_content 1 w7 w7g h1 h2 h3).1,
    (c7_grow_identity_on_content 1 w7 w7g h1 h2 h3).2 3 (-2)⟩

end Hashlife
